import Mathlib

/-!
Verification of the obesity-classification preprocessing and experiment
pipeline.  The Python sources are embedded shallowly: a pandas DataFrame
becomes a `Frame` (a list of column names plus rows of key/value pairs),
cell values become `Val` (missing, string, or rational number), and each
pandas operation used by the code becomes an explicit Lean function.
-/

namespace HW2

/-! ### Definitions: the shallow embedding of the program. -/

/-- Value stored in one cell of a data frame: missing (NaN), a string, or a
number (modelled as a rational). -/
inductive Val where
  | na : Val
  | str : String → Val
  | num : ℚ → Val
deriving DecidableEq, Repr

/-- One row of a data frame: an association list from column name to value. -/
abbrev Row := List (String × Val)

/-- Shallow model of a pandas DataFrame: a list of column names and a list of
rows; well-formed frames (`Frame.WF`) have each row keyed exactly by `cols`. -/
structure Frame where
  cols : List String
  rows : List Row
deriving DecidableEq, Repr

/-- Look up the value of column `c` in a row (first matching key). -/
def rlookup (c : String) : Row → Option Val
  | [] => none
  | p :: t => if p.1 = c then some p.2 else rlookup c t

/-- Value of column `c` in a row, with missing treated as NaN (`Val.na`). -/
def cellVal (c : String) (r : Row) : Val := (rlookup c r).getD Val.na

/-- Keys of a row. -/
def rkeys (r : Row) : List String := r.map Prod.fst

/-- Replace the value stored at key `c` (all occurrences) in a row. -/
def rset (c : String) (v : Val) : Row → Row
  | [] => []
  | p :: t => if p.1 = c then (c, v) :: rset c v t else p :: rset c v t

/-- Remove the entries of a row whose key lies in `cs`. -/
def rdrop (cs : List String) (r : Row) : Row :=
  r.filter (fun p => !(decide (p.1 ∈ cs)))

/-- Column `c` of a frame, as the list of its cell values (row order). -/
def Frame.getCol (f : Frame) (c : String) : List Val := f.rows.map (cellVal c)

/-- Model of `df[dst] = df[src].apply(g)`: writes into an existing column, or
appends a fresh column at the end of the frame. -/
def Frame.applyCol (f : Frame) (src dst : String) (g : Val → Val) : Frame :=
  if dst ∈ f.cols then
    ⟨f.cols, f.rows.map (fun r => rset dst (g (cellVal src r)) r)⟩
  else
    ⟨f.cols ++ [dst], f.rows.map (fun r => r ++ [(dst, g (cellVal src r))])⟩

/-- Model of `df.drop(columns=cs)`. -/
def Frame.dropColumns (f : Frame) (cs : List String) : Frame :=
  ⟨f.cols.filter (fun c => !(decide (c ∈ cs))), f.rows.map (rdrop cs)⟩

/-- Well-formedness: every row is keyed exactly by the frame column list. -/
def Frame.WF (f : Frame) : Prop := ∀ r ∈ f.rows, rkeys r = f.cols

instance (f : Frame) : Decidable f.WF :=
  inferInstanceAs (Decidable (∀ r ∈ f.rows, rkeys r = f.cols))

/-- Whether a row contains a missing value in any column. -/
def rowHasNA (r : Row) : Bool := r.any (fun p => decide (p.2 = Val.na))

/-- Model of `df.dropna()`: drop every row containing a missing value. -/
def dropna (f : Frame) : Frame :=
  ⟨f.cols, f.rows.filter (fun r => !rowHasNA r)⟩

/-- Deduplicate a list of rows keeping the first occurrence of each row,
matching the default behaviour of `df.drop_duplicates()`. -/
def dedupRows : List Row → List Row
  | [] => []
  | r :: t => r :: (dedupRows t).filter (fun x => !(decide (x = r)))

/-- Model of `df.drop_duplicates()`. -/
def drop_duplicates (f : Frame) : Frame := ⟨f.cols, dedupRows f.rows⟩

/-- The Cleaner, `clean_data` of `data_preprocessing.py`: drop rows with
missing values, then drop exact duplicate rows. -/
def clean_data (f : Frame) : Frame := drop_duplicates (dropna f)

/-- Frame for the C2 witness: one row with a missing value, one duplicate. -/
def c2Frame : Frame :=
  ⟨["Age", "Gender"],
   [[("Age", Val.num 21), ("Gender", Val.str "Male")],
    [("Age", Val.na), ("Gender", Val.str "Female")],
    [("Age", Val.num 21), ("Gender", Val.str "Male")]]⟩

/-! The target-derivation step of `main` in `data_preprocessing.py`:
`df["Obesity_Binary"] = df["NObeyesdad"].apply(lambda x: 1 if x in [...] else 0)`
followed by `df.drop(columns=["NObeyesdad"])`. -/

/-- The fixed five labels mapped to `Obesity_Binary = 1`. -/
def obesityLabels : List String :=
  ["Obesity_Type_I", "Obesity_Type_II", "Obesity_Type_III",
   "Overweight_Level_I", "Overweight_Level_II"]

/-- The lambda of line 26: `1 if x in [labels] else 0` on a cell value. -/
def targetVal (v : Val) : Val :=
  if v ∈ obesityLabels.map Val.str then Val.num 1 else Val.num 0

/-- Lines 26 and 27 of `data_preprocessing.py`: derive `Obesity_Binary` from
`NObeyesdad`, then drop the `NObeyesdad` column. -/
def targetStage (f : Frame) : Frame :=
  (f.applyCol "NObeyesdad" "Obesity_Binary" targetVal).dropColumns ["NObeyesdad"]

/-- Witness for C1 on a concrete two-row frame. -/
def c1Frame : Frame :=
  ⟨["NObeyesdad", "Age"],
   [[("NObeyesdad", Val.str "Obesity_Type_I"), ("Age", Val.num 21)],
    [("NObeyesdad", Val.str "Normal_Weight"), ("Age", Val.num 22)]]⟩

/-! Standardization (`StandardScaler.fit_transform` on one numeric column).
The scaler subtracts the column mean and divides by the square root of the
population variance, both computed from the full column being transformed.
The square root is irrational in general, so the divisor is a parameter
`σc` constrained by `σc ^ 2 = popVar xs` in the theorems. -/

/-- Arithmetic mean of a list of rationals (0 for the empty list). -/
def listMean (xs : List ℚ) : ℚ := xs.sum / (xs.length : ℚ)

/-- Population variance (divide by `n`), the convention of `StandardScaler`. -/
def popVar (xs : List ℚ) : ℚ := listMean (xs.map (fun x => (x - listMean xs) ^ 2))

/-- Numeric content of a cell (0 for non-numeric cells). -/
def asNum : Val → ℚ
  | Val.num q => q
  | _ => 0

/-- Model of scaling one column of `df[num_columns] = scaler.fit_transform(...)`:
subtract the column mean, divide by `σc` (the standard deviation). -/
def scaleColumn (f : Frame) (c : String) (σc : ℚ) : Frame :=
  f.applyCol c c
    (fun v => Val.num ((asNum v - listMean ((f.getCol c).map asNum)) / σc))

/-- Witness frame for C4: one numeric column `Age` with values 0 and 2, whose
population variance is exactly 1, so `σc = 1`. -/
def c4Frame : Frame :=
  ⟨["Age"], [[("Age", Val.num 0)], [("Age", Val.num 2)]]⟩

/-! Categorical-column machinery of `main`: `unique()`, `nunique()` and the
generic two-valued binarization of lines 41-43. -/

/-- Model of `Series.unique()`: distinct values in order of first appearance. -/
def firstUniques : List Val → List Val
  | [] => []
  | v :: t => v :: (firstUniques t).filter (fun x => !(decide (x = v)))

/-- Model of `Series.nunique()`: number of distinct non-missing values. -/
def nuniqueVal (vals : List Val) : ℕ :=
  (firstUniques (vals.filter (fun v => !(decide (v = Val.na))))).length

/-- The dict mapping of line 43: `{unique()[0]: 0, unique()[1]: 1}`; values
outside the dict become missing, as `Series.map` does. -/
def binMap (u : List Val) (v : Val) : Val :=
  if v = u.getD 0 Val.na then Val.num 0
  else if v = u.getD 1 Val.na then Val.num 1
  else Val.na

/-- Lines 41-43 of `data_preprocessing.py` for one column: if the column has
exactly two distinct values, replace them by 0 and 1 in first-encountered
order; otherwise leave the frame unchanged. -/
def binarizeStep (f : Frame) (c : String) : Frame :=
  if nuniqueVal (f.getCol c) = 2 then
    f.applyCol c c (binMap (firstUniques (f.getCol c)))
  else f

/-- Witness frame for C6: one two-valued string column `Gender`. -/
def c6Frame : Frame :=
  ⟨["Gender"],
   [[("Gender", Val.str "Male")], [("Gender", Val.str "Female")],
    [("Gender", Val.str "Male")]]⟩

/-! Module-level structure of `data_preprocessing.py`, needed to decide what
runs on a standalone invocation.  In the source the `if __name__ == "__main__"`
guard (lines 57-58) is indented inside the body of `main` itself, so the
module top level consists only of imports and function definitions. -/

/-- Python statement skeleton: function definitions (with their bodies), the
`if __name__ == "__main__"` guard (with the calls it guards), expression
statements that call a function, and other statements. -/
inductive PyStmt where
  | defFun (name : String) (body : List PyStmt)
  | ifMainGuard (calls : List (String × List String))
  | exprCall (fname : String) (args : List String)
  | stmt (desc : String)

/-- Calls executed when a statement list runs as the top level of a script
(`__name__ == "__main__"`): a `def` only binds a name, a guard body runs. -/
def execCalls : List PyStmt → List (String × List String)
  | [] => []
  | PyStmt.defFun _ _ :: t => execCalls t
  | PyStmt.ifMainGuard cs :: t => cs ++ execCalls t
  | PyStmt.exprCall f a :: t => (f, a) :: execCalls t
  | PyStmt.stmt _ :: t => execCalls t

/-- Body of `main` in `data_preprocessing.py` (lines 22-58): the load, clean,
transform and save steps, then — wrongly indented into this body — the
`__main__` guard around `main("./data/ObesityDataSet.csv", "./data/clean_data.csv")`. -/
def dataPreprocessingMainBody : List PyStmt :=
  [PyStmt.exprCall "load_data" ["input_path"],
   PyStmt.exprCall "clean_data" ["df"],
   PyStmt.stmt "derive Obesity_Binary and drop NObeyesdad",
   PyStmt.stmt "binarize categorical columns, derive indicator columns",
   PyStmt.stmt "scale numeric columns",
   PyStmt.exprCall "save_data" ["df", "output_path"],
   PyStmt.ifMainGuard
     [("main", ["./data/ObesityDataSet.csv", "./data/clean_data.csv"])]]

/-- Top level of module `data_preprocessing.py`: imports and four function
definitions; no statement outside a `def`. -/
def dataPreprocessingModule : List PyStmt :=
  [PyStmt.stmt "import pandas as pd",
   PyStmt.stmt "from sklearn.preprocessing import StandardScaler, OneHotEncoder",
   PyStmt.defFun "load_data" [PyStmt.stmt "pd.read_csv"],
   PyStmt.defFun "clean_data" [PyStmt.stmt "dropna", PyStmt.stmt "drop_duplicates"],
   PyStmt.defFun "save_data" [PyStmt.stmt "to_csv"],
   PyStmt.defFun "main" dataPreprocessingMainBody]

/-! The Experiment Runner of `experiments.py`.  Training and tracking are
library calls; the loop of `run_experiments` (lines 126-188) is modelled as a
fold over the fixed list of five configurations with an exception monad
(`Except`): any exception raised while training or logging one model
propagates and aborts the whole batch. -/

/-- Algorithm kind of a model configuration. -/
inductive ModelKind where
  | logisticRegression : ModelKind
  | svc : ModelKind
  | decisionTree : ModelKind
deriving DecidableEq, Repr

/-- One entry of the `experiments` list: algorithm, hyperparameters, name. -/
structure ExperimentConfig where
  kind : ModelKind
  params : List (String × String)
  name : String
deriving DecidableEq, Repr

/-- The fixed ordered list of five model configurations (lines 128-149). -/
def experiments : List ExperimentConfig :=
  [⟨ModelKind.logisticRegression,
    [("max_iter", "1000"), ("random_state", "42")], "Logistic Regression (C=1.0)"⟩,
   ⟨ModelKind.logisticRegression,
    [("max_iter", "2000"), ("random_state", "42"), ("C", "0.5")],
    "Logistic Regression (C=0.5)"⟩,
   ⟨ModelKind.svc,
    [("kernel", "linear"), ("random_state", "42")], "SVM (Linear Kernel)"⟩,
   ⟨ModelKind.decisionTree,
    [("max_depth", "10"), ("random_state", "42")], "Decision Tree (max_depth=10)"⟩,
   ⟨ModelKind.decisionTree,
    [("max_depth", "15"), ("random_state", "42")], "Decision Tree (max_depth=15)"⟩]

/-- One run record: identifier, model name, the four metrics, and the two
artifact paths (confusion matrix image, classification report text). -/
structure RunRecord where
  runId : String
  model : String
  accuracy : ℚ
  precisionScore : ℚ
  recallScore : ℚ
  f1 : ℚ
  confusionMatrixPath : String
  classificationReportPath : String
deriving DecidableEq, Repr

/-- Default record (used only as the default of list indexing). -/
def defaultRunRecord : RunRecord := ⟨"", "", 0, 0, 0, 0, "", ""⟩

/-- The loop of `run_experiments`: train and log each configuration in list
order, appending one record per configuration; an exception from `step`
(training or logging one model) aborts the remaining iterations. -/
def runLoop (step : ExperimentConfig → Except String RunRecord) :
    List ExperimentConfig → Except String (List RunRecord)
  | [] => Except.ok []
  | e :: t =>
    match step e with
    | Except.error err => Except.error err
    | Except.ok r =>
      match runLoop step t with
      | Except.error err => Except.error err
      | Except.ok rs => Except.ok (r :: rs)

/-- Model of `run_experiments` (lines 126-188), parameterized by the effect of
training and logging one model. -/
def run_experiments (step : ExperimentConfig → Except String RunRecord) :
    Except String (List RunRecord) :=
  runLoop step experiments

/-- Concrete all-successful step used by the C9 witness. -/
def c9Step (e : ExperimentConfig) : Except String RunRecord :=
  Except.ok ⟨"run-0", e.name, 1, 1, 1, 1, "cm.png", "cr.txt"⟩

/-- The records `c9Step` yields for the five configurations. -/
def c9Records : List RunRecord :=
  experiments.map (fun e => ⟨"run-0", e.name, 1, 1, 1, 1, "cm.png", "cr.txt"⟩)

/-! The Report Generator of `experiments.py` (`generate_report`,
lines 192-294).  The report-relevant computation: the metric columns of the
run collection are rounded to 4 decimal places in place (line 198, mutating
the collection passed in), the narrative "best" model is the one of highest
F1 (line 232), and the headline metrics block comes from the row of highest
accuracy (lines 249-253). -/

/-- Round half to even on rationals (the rounding of `DataFrame.round`). -/
def rhe (x : ℚ) : ℤ :=
  if x - ⌊x⌋ < 1/2 then ⌊x⌋
  else if x - ⌊x⌋ > 1/2 then ⌊x⌋ + 1
  else if ⌊x⌋ % 2 = 0 then ⌊x⌋ else ⌊x⌋ + 1

/-- Rounding to 4 decimal places, the `round(4)` of line 198. -/
def round4 (q : ℚ) : ℚ := (rhe (q * 10000) : ℚ) / 10000

/-- Effect of line 197-198 on one run record: the four metrics are rounded,
identifier and artifact paths untouched. -/
def roundRecord (r : RunRecord) : RunRecord :=
  { r with accuracy := round4 r.accuracy,
           precisionScore := round4 r.precisionScore,
           recallScore := round4 r.recallScore,
           f1 := round4 r.f1 }

/-- Model of `Series.idxmax`: index of the first occurrence of the maximum of
`g` over the list (0 on the empty list). -/
def idxmaxBy (g : RunRecord → ℚ) : List RunRecord → ℕ
  | [] => 0
  | r :: t =>
    let j := idxmaxBy g t
    if g (t.getD j r) > g r then j + 1 else 0

/-- Observable output of `generate_report`: the final state of the run
collection passed in (mutated by the rounding), the model named by the
narrative insight (highest F1, line 232), and the headline best-model block
(the row of highest accuracy, lines 249-253). -/
structure ReportOutput where
  runsAfter : List RunRecord
  narrativeBestModel : String
  headlineModel : String
  headlineAccuracy : ℚ
  headlinePrecision : ℚ
  headlineRecall : ℚ
  headlineF1 : ℚ
deriving DecidableEq, Repr

/-- Model of `generate_report` (lines 192-294). -/
def generate_report (rs : List RunRecord) : ReportOutput :=
  let rounded := rs.map roundRecord
  let bestF1 := rounded.getD (idxmaxBy (fun r => r.f1) rounded) defaultRunRecord
  let bestAcc :=
    rounded.getD (idxmaxBy (fun r => r.accuracy) rounded) defaultRunRecord
  { runsAfter := rounded
    narrativeBestModel := bestF1.model
    headlineModel := bestAcc.model
    headlineAccuracy := bestAcc.accuracy
    headlinePrecision := bestAcc.precisionScore
    headlineRecall := bestAcc.recallScore
    headlineF1 := bestAcc.f1 }

/-- Concrete run record whose metrics have more than 4 decimal places. -/
def c7Record : RunRecord :=
  ⟨"run-1", "SVM (Linear Kernel)", 1/3, 1/3, 1/3, 1/3,
   "confusion_matrix_svm_(linear_kernel).png",
   "classification_report_svm_(linear_kernel).txt"⟩

/-- Record selected nowhere by F1 but everywhere by accuracy. -/
def c8RecA : RunRecord := ⟨"run-a", "A", 1, 0, 0, 0, "cma.png", "cra.txt"⟩

/-- Record selected by F1 but not by accuracy. -/
def c8RecB : RunRecord := ⟨"run-b", "B", 0, 1, 1, 1, "cmb.png", "crb.txt"⟩

/-! The full Feature Transformer pipeline of `main` (lines 21-54 of
`data_preprocessing.py`), assembled from the pieces above. -/

/-- Whether a cell value is numeric. -/
def isNumVal : Val → Bool
  | Val.num _ => true
  | _ => false

/-- Whether a cell value is a string. -/
def isObjectVal : Val → Bool
  | Val.str _ => true
  | _ => false

/-- Whether a column has pandas dtype `object`: it holds some string. -/
def isObjectCol (vals : List Val) : Bool := vals.any isObjectVal

/-- The `cat_columns` of lines 33-39: columns of the feature table whose
dtype is `object`. -/
def catColumns (f : Frame) : List String :=
  f.cols.filter (fun c => isObjectCol (f.getCol c))

/-- The `num_columns` of lines 33-39: the non-object columns. -/
def numColumns (f : Frame) : List String :=
  f.cols.filter (fun c => !(isObjectCol (f.getCol c)))

/-- Line 30: `features = df.drop(columns=["Obesity_Binary"])`. -/
def featuresOf (f : Frame) : Frame := f.dropColumns ["Obesity_Binary"]

/-- The lambda of line 45: `1 if x == "Public_Transportation" else 0`. -/
def mtransVal (v : Val) : Val :=
  if v = Val.str "Public_Transportation" then Val.num 1 else Val.num 0

/-- The lambda of lines 46-47: `1 if x in ["Frequently", "Always"] else 0`. -/
def caecCalcVal (v : Val) : Val :=
  if v ∈ [Val.str "Frequently", Val.str "Always"] then Val.num 1 else Val.num 0

/-- Lines 45-49: derive the three indicator columns, then drop their three
source columns. -/
def indicatorStage (f : Frame) : Frame :=
  ((((f.applyCol "MTRANS" "MTRANS_Binary" mtransVal).applyCol
      "CAEC" "CAEC_binary" caecCalcVal).applyCol
      "CALC" "CALC_binary" caecCalcVal).dropColumns ["MTRANS", "CALC", "CAEC"])

/-- The Feature Transformer of `main` (lines 21-54), parameterized by the
per-column standard deviation `σ` used by the scaler (the square root of the
column variance, irrational in general): derive the target, binarize the
two-valued categorical columns, derive the indicator columns and drop their
sources, then standardize the numeric columns. -/
def mainTransform (σ : String → ℚ) (df0 : Frame) : Frame :=
  let df2 := targetStage df0
  let feats := featuresOf df2
  let df3 := (catColumns feats).foldl binarizeStep df2
  let df7 := indicatorStage df3
  (numColumns feats).foldl (fun d c => scaleColumn d c (σ c)) df7

/-- Effect of `binarizeStep` on its own column, as a function on columns. -/
def binColFun (vals : List Val) : List Val :=
  if nuniqueVal vals = 2 then vals.map (binMap (firstUniques vals)) else vals

/-- Frame refuting C5 as stated: it contains every expected column and a
numeric `Age` column (so the scaler of line 52 has a nonempty feature set
and the script runs to completion), yet its extra `SMOKE` column has three
distinct values, so the generic binarization skips it and it survives the
transform as strings. -/
def c5Frame : Frame :=
  ⟨["NObeyesdad", "Age", "MTRANS", "CAEC", "CALC", "SMOKE"],
   [[("NObeyesdad", Val.str "Normal_Weight"), ("Age", Val.num 21),
     ("MTRANS", Val.str "Public_Transportation"),
     ("CAEC", Val.str "no"), ("CALC", Val.str "no"),
     ("SMOKE", Val.str "yes")],
    [("NObeyesdad", Val.str "Obesity_Type_I"), ("Age", Val.num 22),
     ("MTRANS", Val.str "Walking"),
     ("CAEC", Val.str "Sometimes"), ("CALC", Val.str "Frequently"),
     ("SMOKE", Val.str "no")],
    [("NObeyesdad", Val.str "Obesity_Type_II"), ("Age", Val.num 25),
     ("MTRANS", Val.str "Automobile"),
     ("CAEC", Val.str "Frequently"), ("CALC", Val.str "Always"),
     ("SMOKE", Val.str "sometimes")]]⟩

/-- Frame for the C5 witness: a numeric `Age` column (so the scaler of
line 52 has a nonempty feature set) and categorical feature columns in which
every one other than the three dropped sources (here `Gender`) has exactly
two distinct values. -/
def c5WitFrame : Frame :=
  ⟨["NObeyesdad", "Age", "Gender", "MTRANS", "CAEC", "CALC"],
   [[("NObeyesdad", Val.str "Normal_Weight"), ("Age", Val.num 21),
     ("Gender", Val.str "Male"),
     ("MTRANS", Val.str "Public_Transportation"),
     ("CAEC", Val.str "no"), ("CALC", Val.str "no")],
    [("NObeyesdad", Val.str "Obesity_Type_I"), ("Age", Val.num 22),
     ("Gender", Val.str "Female"),
     ("MTRANS", Val.str "Walking"),
     ("CAEC", Val.str "Sometimes"), ("CALC", Val.str "Frequently")]]⟩

/-- Frame for the C10 witness: it carries all the columns the script reads
and a numeric `Age` column; after cleaning, CAEC holds exactly the two
values "Frequently" and "no" and CALC exactly "Always" and "no", so lines
46-47 nevertheless yield all-zero indicator columns. -/
def c10Frame : Frame :=
  ⟨["NObeyesdad", "Age", "MTRANS", "CAEC", "CALC"],
   [[("NObeyesdad", Val.str "Normal_Weight"), ("Age", Val.num 21),
     ("MTRANS", Val.str "Public_Transportation"),
     ("CAEC", Val.str "Frequently"), ("CALC", Val.str "Always")],
    [("NObeyesdad", Val.str "Obesity_Type_I"), ("Age", Val.num 22),
     ("MTRANS", Val.str "Walking"),
     ("CAEC", Val.str "no"), ("CALC", Val.str "no")]]⟩

/-! ### Theorems. -/

/-! Basic facts about row deduplication. -/

theorem mem_dedupRows {x : Row} : ∀ {l : List Row}, x ∈ dedupRows l → x ∈ l := by
  intro l
  induction l with
  | nil => intro h; simp [dedupRows] at h
  | cons r t ih =>
    intro h
    rw [dedupRows] at h
    rcases List.mem_cons.mp h with h | h
    · exact h ▸ List.mem_cons_self _ _
    · exact List.mem_cons_of_mem _ (ih (List.mem_of_mem_filter h))

theorem nodup_dedupRows : ∀ (l : List Row), (dedupRows l).Nodup := by
  intro l
  induction l with
  | nil => simp [dedupRows]
  | cons r t ih =>
    rw [dedupRows]
    refine List.nodup_cons.mpr ⟨?_, List.Nodup.filter _ ih⟩
    intro hmem
    have := List.of_mem_filter hmem
    simp at this

theorem length_dedupRows_le : ∀ (l : List Row), (dedupRows l).length ≤ l.length := by
  intro l
  induction l with
  | nil => simp [dedupRows]
  | cons r t ih =>
    rw [dedupRows]
    simp only [List.length_cons, Nat.succ_le_succ_iff]
    exact le_trans (List.length_filter_le _ _) ih

/-- C2.  For every input frame, the output of `clean_data` contains no
missing value in any cell, contains no exact duplicate rows, and has at most
as many rows as the input. -/
theorem c2_clean_data_invariants (df : Frame) :
    (∀ r ∈ (clean_data df).rows, ∀ p ∈ r, p.2 ≠ Val.na) ∧
    (clean_data df).rows.Nodup ∧
    (clean_data df).rows.length ≤ df.rows.length := by
  refine ⟨?_, nodup_dedupRows _, ?_⟩
  · intro r hr p hp
    have hrf : r ∈ (dropna df).rows := mem_dedupRows hr
    have hna : rowHasNA r = false := by
      simp only [dropna, List.mem_filter, Bool.not_eq_true'] at hrf
      exact hrf.2
    intro hcontra
    have : r.any (fun p => decide (p.2 = Val.na)) = true :=
      List.any_eq_true.mpr ⟨p, hp, by simp [hcontra]⟩
    rw [rowHasNA] at hna
    rw [this] at hna
    exact Bool.true_eq_false.mp hna
  · exact le_trans (length_dedupRows_le _) (List.length_filter_le _ _)

theorem c2_clean_data_invariants_witness :
    (∀ r ∈ (clean_data c2Frame).rows, ∀ p ∈ r, p.2 ≠ Val.na) ∧
    (clean_data c2Frame).rows.Nodup ∧
    (clean_data c2Frame).rows.length ≤ c2Frame.rows.length :=
  c2_clean_data_invariants c2Frame

/-! Row-level lookup lemmas. -/

theorem rkeys_cons (p : String × Val) (t : Row) :
    rkeys (p :: t) = p.1 :: rkeys t := rfl

theorem rlookup_eq_none_iff (c : String) (r : Row) :
    rlookup c r = none ↔ c ∉ rkeys r := by
  induction r with
  | nil => simp [rlookup, rkeys]
  | cons p t ih =>
    rw [rlookup, rkeys_cons]
    by_cases h : p.1 = c
    · simp [h]
    · rw [if_neg h, ih, List.mem_cons]
      constructor
      · intro hn hm
        rcases hm with hm | hm
        · exact h hm.symm
        · exact hn hm
      · intro hn hm
        exact hn (Or.inr hm)

theorem rlookup_rset_self (c : String) (v : Val) (r : Row) :
    rlookup c (rset c v r) = if c ∈ rkeys r then some v else none := by
  induction r with
  | nil => simp [rset, rlookup, rkeys]
  | cons p t ih =>
    by_cases h : p.1 = c
    · simp [rset, h, rlookup, rkeys]
    · rw [rset, if_neg h, rlookup, if_neg h, ih, rkeys_cons]
      by_cases hm : c ∈ rkeys t
      · rw [if_pos hm, if_pos (List.mem_cons_of_mem _ hm)]
      · rw [if_neg hm, if_neg ?_]
        intro hc
        rcases List.mem_cons.mp hc with hc | hc
        · exact h hc.symm
        · exact hm hc

theorem rlookup_rset_ne {c' c : String} (h : c' ≠ c) (v : Val) (r : Row) :
    rlookup c' (rset c v r) = rlookup c' r := by
  induction r with
  | nil => simp [rset]
  | cons p t ih =>
    by_cases hp : p.1 = c
    · rw [rset, if_pos hp, rlookup, rlookup]
      rw [if_neg (fun hc => h hc.symm), if_neg (fun hp1 => h (hp ▸ hp1).symm)]
      exact ih
    · rw [rset, if_neg hp, rlookup, rlookup]
      by_cases hp' : p.1 = c'
      · rw [if_pos hp', if_pos hp']
      · rw [if_neg hp', if_neg hp']
        exact ih

theorem rlookup_append (c : String) (r s : Row) :
    rlookup c (r ++ s) =
      (match rlookup c r with
       | some v => some v
       | none => rlookup c s) := by
  induction r with
  | nil => simp [rlookup]
  | cons p t ih =>
    by_cases h : p.1 = c
    · simp [rlookup, h]
    · simp only [List.cons_append, rlookup, if_neg h]
      exact ih

theorem rkeys_rset (c : String) (v : Val) (r : Row) :
    rkeys (rset c v r) = rkeys r := by
  induction r with
  | nil => simp [rset]
  | cons p t ih =>
    by_cases h : p.1 = c
    · simp [rset, h, rkeys] at *
      exact ih
    · simp [rset, h, rkeys] at *
      exact ih

theorem rkeys_append (r s : Row) : rkeys (r ++ s) = rkeys r ++ rkeys s := by
  simp [rkeys]

theorem rkeys_rdrop (cs : List String) (r : Row) :
    rkeys (rdrop cs r) = (rkeys r).filter (fun c => !(decide (c ∈ cs))) := by
  induction r with
  | nil => simp [rdrop, rkeys]
  | cons p t ih =>
    by_cases h : p.1 ∈ cs
    · simp only [rdrop, rkeys, List.filter, List.map] at *
      simp [h] at *
      exact ih
    · simp only [rdrop, rkeys, List.filter, List.map] at *
      simp [h] at *
      exact ih

theorem rlookup_rdrop_of_not_mem {c : String} {cs : List String} (h : c ∉ cs)
    (r : Row) : rlookup c (rdrop cs r) = rlookup c r := by
  induction r with
  | nil => simp [rdrop]
  | cons p t ih =>
    by_cases hp : p.1 ∈ cs
    · have hne : p.1 ≠ c := fun he => h (he ▸ hp)
      simp only [rdrop, List.filter] at *
      simp [hp] at *
      rw [rlookup, if_neg hne]
      exact ih
    · simp only [rdrop, List.filter] at *
      simp [hp] at *
      rw [rlookup, rlookup]
      by_cases hpc : p.1 = c
      · simp [hpc]
      · rw [if_neg hpc, if_neg hpc]
        exact ih

/-! Frame-level lemmas about `applyCol` and `dropColumns`. -/

theorem Frame.cols_applyCol (f : Frame) (src dst : String) (g : Val → Val) :
    (f.applyCol src dst g).cols =
      if dst ∈ f.cols then f.cols else f.cols ++ [dst] := by
  by_cases h : dst ∈ f.cols <;> simp [Frame.applyCol, h]

theorem Frame.length_rows_applyCol (f : Frame) (src dst : String)
    (g : Val → Val) : (f.applyCol src dst g).rows.length = f.rows.length := by
  by_cases h : dst ∈ f.cols <;> simp [Frame.applyCol, h]

theorem Frame.getCol_applyCol_ne {c dst : String} (h : c ≠ dst) (f : Frame)
    (src : String) (g : Val → Val) :
    (f.applyCol src dst g).getCol c = f.getCol c := by
  by_cases hd : dst ∈ f.cols
  · simp only [Frame.applyCol, if_pos hd, Frame.getCol, List.map_map]
    apply List.map_congr_left
    intro r _
    simp only [Function.comp_apply, cellVal]
    rw [rlookup_rset_ne h]
  · simp only [Frame.applyCol, if_neg hd, Frame.getCol, List.map_map]
    apply List.map_congr_left
    intro r _
    simp only [Function.comp_apply, cellVal]
    rw [rlookup_append]
    cases hl : rlookup c r with
    | some v => rfl
    | none => simp [rlookup, show dst ≠ c from fun he => h he.symm]

theorem Frame.getCol_applyCol_self (f : Frame) (hwf : f.WF) (src dst : String)
    (g : Val → Val) :
    (f.applyCol src dst g).getCol dst = (f.getCol src).map g := by
  by_cases hd : dst ∈ f.cols
  · simp only [Frame.applyCol, if_pos hd, Frame.getCol, List.map_map]
    apply List.map_congr_left
    intro r hr
    simp only [Function.comp_apply, cellVal]
    rw [rlookup_rset_self]
    rw [hwf r hr, if_pos hd]
    rfl
  · simp only [Frame.applyCol, if_neg hd, Frame.getCol, List.map_map]
    apply List.map_congr_left
    intro r hr
    simp only [Function.comp_apply, cellVal]
    rw [rlookup_append]
    have hnone : rlookup dst r = none :=
      (rlookup_eq_none_iff _ _).mpr (by rw [hwf r hr]; exact hd)
    rw [hnone]
    simp [rlookup]

theorem Frame.WF_applyCol (f : Frame) (hwf : f.WF) (src dst : String)
    (g : Val → Val) : (f.applyCol src dst g).WF := by
  by_cases hd : dst ∈ f.cols
  · simp only [Frame.applyCol, if_pos hd, Frame.WF]
    intro r hr
    rcases List.mem_map.mp hr with ⟨r0, hr0, rfl⟩
    rw [rkeys_rset]
    exact hwf r0 hr0
  · simp only [Frame.applyCol, if_neg hd, Frame.WF]
    intro r hr
    rcases List.mem_map.mp hr with ⟨r0, hr0, rfl⟩
    rw [rkeys_append, hwf r0 hr0]
    rfl

theorem Frame.cols_dropColumns (f : Frame) (cs : List String) :
    (f.dropColumns cs).cols = f.cols.filter (fun c => !(decide (c ∈ cs))) := rfl

theorem Frame.length_rows_dropColumns (f : Frame) (cs : List String) :
    (f.dropColumns cs).rows.length = f.rows.length := by
  simp [Frame.dropColumns]

theorem Frame.getCol_dropColumns {c : String} {cs : List String} (h : c ∉ cs)
    (f : Frame) : (f.dropColumns cs).getCol c = f.getCol c := by
  simp only [Frame.dropColumns, Frame.getCol, List.map_map]
  apply List.map_congr_left
  intro r _
  simp only [Function.comp_apply, cellVal]
  rw [rlookup_rdrop_of_not_mem h]

theorem Frame.WF_dropColumns (f : Frame) (hwf : f.WF) (cs : List String) :
    (f.dropColumns cs).WF := by
  simp only [Frame.dropColumns, Frame.WF]
  intro r hr
  rcases List.mem_map.mp hr with ⟨r0, hr0, rfl⟩
  rw [rkeys_rdrop, hwf r0 hr0]

theorem Frame.not_mem_cols_dropColumns {c : String} {cs : List String}
    (h : c ∈ cs) (f : Frame) : c ∉ (f.dropColumns cs).cols := by
  simp [Frame.cols_dropColumns, List.mem_filter, h]

/-- C1.  After the target-derivation step, the label column is gone and, row
by row, `Obesity_Binary` is `1` exactly when the original `NObeyesdad` value
is one of the five fixed labels and `0` exactly otherwise. -/
theorem c1_target_binarization (df : Frame) (hwf : df.WF) :
    "NObeyesdad" ∉ (targetStage df).cols ∧
    (targetStage df).rows.length = df.rows.length ∧
    ∀ i < df.rows.length,
      (((targetStage df).getCol "Obesity_Binary").getD i Val.na = Val.num 1 ↔
        (df.getCol "NObeyesdad").getD i Val.na ∈ obesityLabels.map Val.str) ∧
      (((targetStage df).getCol "Obesity_Binary").getD i Val.na = Val.num 0 ↔
        (df.getCol "NObeyesdad").getD i Val.na ∉ obesityLabels.map Val.str) := by
  have hdrop : "NObeyesdad" ∉ (targetStage df).cols :=
    Frame.not_mem_cols_dropColumns (by simp) _
  have hcol : (targetStage df).getCol "Obesity_Binary" =
      (df.getCol "NObeyesdad").map targetVal := by
    rw [targetStage, Frame.getCol_dropColumns (by simp),
      Frame.getCol_applyCol_self _ hwf]
  have hlen : (targetStage df).rows.length = df.rows.length := by
    rw [targetStage, Frame.length_rows_dropColumns, Frame.length_rows_applyCol]
  refine ⟨hdrop, hlen, ?_⟩
  intro i hi
  have hlencol : (df.getCol "NObeyesdad").length = df.rows.length := by
    simp [Frame.getCol]
  have hget : ((targetStage df).getCol "Obesity_Binary").getD i Val.na =
      targetVal ((df.getCol "NObeyesdad").getD i Val.na) := by
    rw [hcol]
    rw [List.getD_eq_getElem?_getD, List.getD_eq_getElem?_getD]
    rw [List.getElem?_map]
    have : i < (df.getCol "NObeyesdad").length := by rw [hlencol]; exact hi
    rw [List.getElem?_eq_getElem this]
    rfl
  rw [hget, targetVal]
  by_cases hmem : (df.getCol "NObeyesdad").getD i Val.na ∈ obesityLabels.map Val.str
  · rw [if_pos hmem]
    exact ⟨⟨fun _ => hmem, fun _ => rfl⟩, ⟨fun h => absurd h (by simp), fun h => absurd hmem h⟩⟩
  · rw [if_neg hmem]
    refine ⟨⟨fun h => absurd h (by simp), fun h => absurd h hmem⟩, ⟨fun _ => hmem, fun _ => rfl⟩⟩

theorem c1_target_binarization_witness :
    "NObeyesdad" ∉ (targetStage c1Frame).cols ∧
    (targetStage c1Frame).rows.length = c1Frame.rows.length ∧
    ∀ i < c1Frame.rows.length,
      (((targetStage c1Frame).getCol "Obesity_Binary").getD i Val.na = Val.num 1 ↔
        (c1Frame.getCol "NObeyesdad").getD i Val.na ∈ obesityLabels.map Val.str) ∧
      (((targetStage c1Frame).getCol "Obesity_Binary").getD i Val.na = Val.num 0 ↔
        (c1Frame.getCol "NObeyesdad").getD i Val.na ∉ obesityLabels.map Val.str) :=
  c1_target_binarization c1Frame (by decide)

theorem list_sum_map_mul_add (xs : List ℚ) (a b : ℚ) :
    (xs.map (fun x => x * a + b)).sum = xs.sum * a + (xs.length : ℚ) * b := by
  induction xs with
  | nil => simp
  | cons x t ih =>
    simp only [List.map_cons, List.sum_cons, ih, List.length_cons]
    push_cast
    ring

theorem standardized_mean_var (xs : List ℚ) (σc : ℚ) (hx : xs ≠ [])
    (hσ : σc ≠ 0) (hvar : σc ^ 2 = popVar xs) :
    listMean (xs.map (fun x => (x - listMean xs) / σc)) = 0 ∧
    popVar (xs.map (fun x => (x - listMean xs) / σc)) = 1 := by
  have hn : (xs.length : ℚ) ≠ 0 := by
    have : xs.length ≠ 0 := fun h => hx (List.length_eq_zero.mp h)
    exact_mod_cast Nat.cast_ne_zero.mpr this
  have hsum : xs.sum = (xs.length : ℚ) * listMean xs := by
    rw [listMean]
    field_simp
  have hmap1 : xs.map (fun x => (x - listMean xs) / σc) =
      xs.map (fun x => x * (1 / σc) + (-(listMean xs / σc))) := by
    apply List.map_congr_left
    intro x _
    field_simp
    ring
  have hsum1 : (xs.map (fun x => (x - listMean xs) / σc)).sum = 0 := by
    rw [hmap1, list_sum_map_mul_add, hsum]
    ring
  have hmean1 : listMean (xs.map (fun x => (x - listMean xs) / σc)) = 0 := by
    rw [listMean, hsum1]
    simp
  refine ⟨hmean1, ?_⟩
  rw [popVar, hmean1]
  have hmap2 : ((xs.map (fun x => (x - listMean xs) / σc)).map (fun y => (y - 0) ^ 2)) =
      (xs.map (fun x => (x - listMean xs) ^ 2)).map (fun z => z * (1 / σc ^ 2) + 0) := by
    rw [List.map_map, List.map_map]
    apply List.map_congr_left
    intro x _
    simp only [Function.comp_apply, sub_zero, add_zero]
    rw [div_pow]
    field_simp
  have hvarsum : (xs.map (fun x => (x - listMean xs) ^ 2)).sum =
      (xs.length : ℚ) * σc ^ 2 := by
    have hpv : popVar xs =
        (xs.map (fun x => (x - listMean xs) ^ 2)).sum / (xs.length : ℚ) := by
      rw [popVar, listMean, List.length_map]
    have := hvar
    rw [hpv] at this
    field_simp at this
    linarith [this]
  rw [hmap2, listMean, list_sum_map_mul_add, hvarsum]
  rw [List.length_map, List.length_map]
  have hσ2 : σc ^ 2 ≠ 0 := pow_ne_zero _ hσ
  field_simp

/-- C4.  Scaling a column with `σc` equal to the square root of its population
variance (computed, like the mean, from the full column being transformed)
yields a column of mean exactly 0 and population variance exactly 1. -/
theorem c4_standardize_mean_var (f : Frame) (c : String) (σc : ℚ) (hwf : f.WF)
    (hrows : f.rows ≠ []) (hσ : σc ≠ 0)
    (hvar : σc ^ 2 = popVar ((f.getCol c).map asNum)) :
    listMean (((scaleColumn f c σc).getCol c).map asNum) = 0 ∧
    popVar (((scaleColumn f c σc).getCol c).map asNum) = 1 := by
  have hcol : (scaleColumn f c σc).getCol c =
      (f.getCol c).map
        (fun v => Val.num ((asNum v - listMean ((f.getCol c).map asNum)) / σc)) := by
    rw [scaleColumn, Frame.getCol_applyCol_self _ hwf]
  have hcomp : ((scaleColumn f c σc).getCol c).map asNum =
      ((f.getCol c).map asNum).map
        (fun x => (x - listMean ((f.getCol c).map asNum)) / σc) := by
    rw [hcol, List.map_map, List.map_map]
    apply List.map_congr_left
    intro v _
    rfl
  have hx : (f.getCol c).map asNum ≠ [] := by
    intro hcontra
    apply hrows
    have := congrArg List.length hcontra
    simp [Frame.getCol] at this
    exact List.length_eq_zero.mp (by simp [this])
  rw [hcomp]
  exact standardized_mean_var _ _ hx hσ hvar

theorem c4_standardize_mean_var_witness :
    listMean (((scaleColumn c4Frame "Age" 1).getCol "Age").map asNum) = 0 ∧
    popVar (((scaleColumn c4Frame "Age" 1).getCol "Age").map asNum) = 1 :=
  c4_standardize_mean_var c4Frame "Age" 1 (by decide) (by decide) (by decide)
    (by norm_num [c4Frame, Frame.getCol, cellVal, rlookup, asNum, popVar,
      listMean])

theorem mem_of_mem_firstUniques {x : Val} :
    ∀ {l : List Val}, x ∈ firstUniques l → x ∈ l := by
  intro l
  induction l with
  | nil => intro h; simp [firstUniques] at h
  | cons v t ih =>
    intro h
    rw [firstUniques] at h
    rcases List.mem_cons.mp h with h | h
    · exact h ▸ List.mem_cons_self _ _
    · exact List.mem_cons_of_mem _ (ih (List.mem_of_mem_filter h))

theorem mem_firstUniques_of_mem {x : Val} :
    ∀ {l : List Val}, x ∈ l → x ∈ firstUniques l := by
  intro l
  induction l with
  | nil => intro h; simp at h
  | cons v t ih =>
    intro h
    rw [firstUniques]
    by_cases hx : x = v
    · exact hx ▸ List.mem_cons_self _ _
    · rcases List.mem_cons.mp h with h | h
      · exact absurd h hx
      · exact List.mem_cons_of_mem _
          (List.mem_filter.mpr ⟨ih h, by simp [hx]⟩)

theorem nodup_firstUniques : ∀ (l : List Val), (firstUniques l).Nodup := by
  intro l
  induction l with
  | nil => simp [firstUniques]
  | cons v t ih =>
    rw [firstUniques]
    refine List.nodup_cons.mpr ⟨?_, List.Nodup.filter _ ih⟩
    intro hmem
    have := List.of_mem_filter hmem
    simp at this

theorem head?_firstUniques (l : List Val) :
    (firstUniques l).head? = l.head? := by
  cases l with
  | nil => rfl
  | cons v t => rw [firstUniques]; rfl

/-- C6.  If a column has exactly two distinct values (`unique()` returning
`[a, b]`) and no missing entries, then the generic binarization step maps
the first-encountered value `a` (the head of the column) to 0 and the other
value to 1, cell by cell. -/
theorem c6_two_valued_binarize (f : Frame) (c : String) (a b : Val)
    (hwf : f.WF) (hna : Val.na ∉ f.getCol c)
    (hu : firstUniques (f.getCol c) = [a, b]) :
    (f.getCol c).head? = some a ∧
    (binarizeStep f c).getCol c =
      (f.getCol c).map (fun v => if v = a then Val.num 0 else Val.num 1) := by
  have hhead : (f.getCol c).head? = some a := by
    rw [← head?_firstUniques, hu]
    rfl
  have hfilter : (f.getCol c).filter (fun v => !(decide (v = Val.na))) =
      f.getCol c := by
    apply List.filter_eq_self.mpr
    intro v hv
    simp only [Bool.not_eq_true', decide_eq_false_iff_not]
    intro hcontra
    exact hna (hcontra ▸ hv)
  have hcond : nuniqueVal (f.getCol c) = 2 := by
    rw [nuniqueVal, hfilter, hu]
    rfl
  have hab : a ≠ b := by
    have := nodup_firstUniques (f.getCol c)
    rw [hu] at this
    simp at this
    exact this
  refine ⟨hhead, ?_⟩
  rw [binarizeStep, if_pos hcond, Frame.getCol_applyCol_self _ hwf]
  apply List.map_congr_left
  intro v hv
  have hvmem : v ∈ firstUniques (f.getCol c) := mem_firstUniques_of_mem hv
  rw [hu] at hvmem
  simp only [List.mem_cons, List.not_mem_nil, or_false] at hvmem
  rcases hvmem with rfl | rfl
  · rw [hu]
    simp [binMap]
  · rw [hu]
    simp only [binMap, List.getD]
    rw [if_neg (by simpa using fun h => hab h.symm), if_pos (by rfl),
      if_neg (fun h => hab h.symm)]

theorem c6_two_valued_binarize_witness :
    (c6Frame.getCol "Gender").head? = some (Val.str "Male") ∧
    (binarizeStep c6Frame "Gender").getCol "Gender" =
      (c6Frame.getCol "Gender").map
        (fun v => if v = Val.str "Male" then Val.num 0 else Val.num 1) :=
  c6_two_valued_binarize c6Frame "Gender" (Val.str "Male") (Val.str "Female")
    (by decide) (by decide) (by decide)

/-- C3 (code bug).  Invoking `data_preprocessing.py` standalone executes no
call at all — in particular it never calls `main` — because the
`if __name__ == "__main__"` guard that would call
`main("./data/ObesityDataSet.csv", "./data/clean_data.csv")` sits inside the
body of `main` instead of at module top level. -/
theorem c3_standalone_never_runs_main :
    execCalls dataPreprocessingModule = [] ∧
    PyStmt.defFun "main" dataPreprocessingMainBody ∈ dataPreprocessingModule ∧
    PyStmt.ifMainGuard
      [("main", ["./data/ObesityDataSet.csv", "./data/clean_data.csv"])] ∈
      dataPreprocessingMainBody := by
  refine ⟨rfl, ?_, ?_⟩ <;> simp [dataPreprocessingModule, dataPreprocessingMainBody]

theorem runLoop_ok (step : ExperimentConfig → Except String RunRecord) :
    ∀ (l : List ExperimentConfig) (rs : List RunRecord),
      runLoop step l = Except.ok rs → l.map step = rs.map Except.ok := by
  intro l
  induction l with
  | nil =>
    intro rs h
    rw [runLoop] at h
    cases h
    rfl
  | cons e t ih =>
    intro rs h
    rw [runLoop] at h
    cases hs : step e with
    | error err => rw [hs] at h; cases h
    | ok r =>
      rw [hs] at h
      cases ht : runLoop step t with
      | error err => rw [ht] at h; cases h
      | ok rs0 =>
        rw [ht] at h
        cases h
        simp only [List.map_cons, hs, ih rs0 ht]

theorem runLoop_error_of_mem (step : ExperimentConfig → Except String RunRecord) :
    ∀ (l : List ExperimentConfig) (e : ExperimentConfig), e ∈ l →
      (∃ err, step e = Except.error err) →
      ∃ err2, runLoop step l = Except.error err2 := by
  intro l
  induction l with
  | nil => intro e he; simp at he
  | cons x t ih =>
    intro e he ⟨err, herr⟩
    rcases List.mem_cons.mp he with rfl | he
    · exact ⟨err, by rw [runLoop, herr]⟩
    · cases hs : step x with
      | error err2 => exact ⟨err2, by rw [runLoop, hs]⟩
      | ok r =>
        rcases ih e he ⟨err, herr⟩ with ⟨err2, h2⟩
        exact ⟨err2, by rw [runLoop, hs, h2]⟩

/-- C9.  The Experiment Runner either returns exactly one record per model of
the fixed five-element list, in list order (`experiments.map step` matches the
returned records pointwise), or — as soon as any training or logging step
raises — the whole batch aborts with an error and no partial collection is
returned. -/
theorem c9_all_or_abort (step : ExperimentConfig → Except String RunRecord) :
    (∀ rs, run_experiments step = Except.ok rs →
      experiments.map step = rs.map Except.ok) ∧
    (∀ e ∈ experiments, (∃ err, step e = Except.error err) →
      ∃ err2, run_experiments step = Except.error err2) := by
  exact ⟨fun rs h => runLoop_ok step experiments rs h,
    fun e he hex => runLoop_error_of_mem step experiments e he hex⟩

theorem c9_all_or_abort_witness :
    experiments.map c9Step = c9Records.map Except.ok :=
  (c9_all_or_abort c9Step).1 c9Records (by rfl)

theorem idxmaxBy_lt (g : RunRecord → ℚ) :
    ∀ (l : List RunRecord), l ≠ [] → idxmaxBy g l < l.length := by
  intro l
  induction l with
  | nil => intro h; exact absurd rfl h
  | cons r t ih =>
    intro _
    rw [idxmaxBy]
    by_cases hc : g (t.getD (idxmaxBy g t) r) > g r
    · rw [if_pos hc]
      have ht : t ≠ [] := by
        intro hte
        subst hte
        simp [idxmaxBy, List.getD] at hc
      simpa [List.length_cons, Nat.succ_lt_succ_iff] using ih ht
    · rw [if_neg hc]
      simp

theorem idxmaxBy_le (g : RunRecord → ℚ) :
    ∀ (l : List RunRecord), ∀ r ∈ l,
      g r ≤ g (l.getD (idxmaxBy g l) defaultRunRecord) := by
  intro l
  induction l with
  | nil => intro r hr; simp at hr
  | cons x t ih =>
    intro r hr
    rw [idxmaxBy]
    by_cases hc : g (t.getD (idxmaxBy g t) x) > g x
    · rw [if_pos hc]
      have ht : t ≠ [] := by
        intro hte
        subst hte
        simp [idxmaxBy, List.getD] at hc
      have hj : idxmaxBy g t < t.length := idxmaxBy_lt g t ht
      have hgd : t.getD (idxmaxBy g t) x = t.getD (idxmaxBy g t) defaultRunRecord := by
        rw [List.getD_eq_getElem t x hj, List.getD_eq_getElem t defaultRunRecord hj]
      rw [List.getD_cons_succ]
      rcases List.mem_cons.mp hr with rfl | hr
      · rw [← hgd]
        exact le_of_lt hc
      · exact ih r hr
    · rw [if_neg hc]
      rw [List.getD_cons_zero]
      rcases List.mem_cons.mp hr with rfl | hr
      · exact le_refl _
      · have ht : t ≠ [] := List.ne_nil_of_mem hr
        have hj : idxmaxBy g t < t.length := idxmaxBy_lt g t ht
        have hgd : t.getD (idxmaxBy g t) x = t.getD (idxmaxBy g t) defaultRunRecord := by
          rw [List.getD_eq_getElem t x hj, List.getD_eq_getElem t defaultRunRecord hj]
        exact le_trans (ih r hr) (le_of_not_lt (hgd ▸ hc))

theorem round4_zero : round4 (0 : ℚ) = 0 := by
  norm_num [round4, rhe]

theorem round4_one : round4 (1 : ℚ) = 1 := by
  have hf : ⌊(10000 : ℚ)⌋ = 10000 := by norm_num
  norm_num [round4, rhe, hf]

theorem round4_third : round4 (1/3 : ℚ) = 3333/10000 := by
  have hx : (1/3 : ℚ) * 10000 = 10000/3 := by norm_num
  have hf : ⌊(10000/3 : ℚ)⌋ = 3333 := by
    rw [Int.floor_eq_iff]
    norm_num
  rw [round4, hx, rhe, hf]
  norm_num

/-- C7 counterexample.  Run records are not left unchanged by the Report
Generator: on a collection holding a record with accuracy 1/3, the record
that sits in the collection after `generate_report` has a different
accuracy (the in-place rounding of line 198 changed it). -/
theorem c7_counterexample :
    ((generate_report [c7Record]).runsAfter.getD 0 defaultRunRecord).accuracy =
      3333/10000 ∧
    c7Record.accuracy = 1/3 ∧
    ¬ ((3333 : ℚ)/10000 = 1/3) := by
  have hrep : (generate_report [c7Record]).runsAfter.getD 0 defaultRunRecord =
      roundRecord c7Record := rfl
  refine ⟨?_, rfl, by norm_num⟩
  rw [hrep]
  simp only [roundRecord, c7Record]
  rw [round4_third]

/-- C7 as amended.  The Experiment Runner appends records and never rewrites
them, but `generate_report` mutates the collection passed to it: each
record keeps its identifier, model name and two artifact paths, while its
four metric values are replaced by their roundings to 4 decimal places. -/
theorem c7_report_rounds_in_place (rs : List RunRecord) (i : ℕ)
    (hi : i < rs.length) :
    ((generate_report rs).runsAfter.getD i defaultRunRecord).runId =
      (rs.getD i defaultRunRecord).runId ∧
    ((generate_report rs).runsAfter.getD i defaultRunRecord).model =
      (rs.getD i defaultRunRecord).model ∧
    ((generate_report rs).runsAfter.getD i defaultRunRecord).confusionMatrixPath =
      (rs.getD i defaultRunRecord).confusionMatrixPath ∧
    ((generate_report rs).runsAfter.getD i defaultRunRecord).classificationReportPath =
      (rs.getD i defaultRunRecord).classificationReportPath ∧
    ((generate_report rs).runsAfter.getD i defaultRunRecord).accuracy =
      round4 (rs.getD i defaultRunRecord).accuracy ∧
    ((generate_report rs).runsAfter.getD i defaultRunRecord).precisionScore =
      round4 (rs.getD i defaultRunRecord).precisionScore ∧
    ((generate_report rs).runsAfter.getD i defaultRunRecord).recallScore =
      round4 (rs.getD i defaultRunRecord).recallScore ∧
    ((generate_report rs).runsAfter.getD i defaultRunRecord).f1 =
      round4 (rs.getD i defaultRunRecord).f1 := by
  have hmap : (generate_report rs).runsAfter = rs.map roundRecord := rfl
  have hi2 : i < (rs.map roundRecord).length := by simpa using hi
  have hget : (rs.map roundRecord).getD i defaultRunRecord =
      roundRecord (rs.getD i defaultRunRecord) := by
    rw [List.getD_eq_getElem _ _ hi2, List.getElem_map,
      List.getD_eq_getElem _ _ hi]
  rw [hmap, hget]
  exact ⟨rfl, rfl, rfl, rfl, rfl, rfl, rfl, rfl⟩

theorem c7_report_rounds_in_place_witness :
    ((generate_report [c7Record]).runsAfter.getD 0 defaultRunRecord).runId =
      ([c7Record].getD 0 defaultRunRecord).runId ∧
    ((generate_report [c7Record]).runsAfter.getD 0 defaultRunRecord).model =
      ([c7Record].getD 0 defaultRunRecord).model ∧
    ((generate_report [c7Record]).runsAfter.getD 0 defaultRunRecord).confusionMatrixPath =
      ([c7Record].getD 0 defaultRunRecord).confusionMatrixPath ∧
    ((generate_report [c7Record]).runsAfter.getD 0 defaultRunRecord).classificationReportPath =
      ([c7Record].getD 0 defaultRunRecord).classificationReportPath ∧
    ((generate_report [c7Record]).runsAfter.getD 0 defaultRunRecord).accuracy =
      round4 ([c7Record].getD 0 defaultRunRecord).accuracy ∧
    ((generate_report [c7Record]).runsAfter.getD 0 defaultRunRecord).precisionScore =
      round4 ([c7Record].getD 0 defaultRunRecord).precisionScore ∧
    ((generate_report [c7Record]).runsAfter.getD 0 defaultRunRecord).recallScore =
      round4 ([c7Record].getD 0 defaultRunRecord).recallScore ∧
    ((generate_report [c7Record]).runsAfter.getD 0 defaultRunRecord).f1 =
      round4 ([c7Record].getD 0 defaultRunRecord).f1 :=
  c7_report_rounds_in_place [c7Record] 0 (by decide)

/-- C8.  The Report Generator selects a best model twice and independently:
the narrative insight names a model of maximal (rounded) F1 over the run
collection, while the headline block carries the four metrics of a row of
maximal (rounded) accuracy; and there is a run collection on which the two
selections name different models. -/
theorem c8_two_best_selections (rs : List RunRecord) (h : rs ≠ []) :
    (∃ i, i < (rs.map roundRecord).length ∧
      (generate_report rs).narrativeBestModel =
        ((rs.map roundRecord).getD i defaultRunRecord).model ∧
      ∀ r ∈ rs.map roundRecord,
        r.f1 ≤ ((rs.map roundRecord).getD i defaultRunRecord).f1) ∧
    (∃ j, j < (rs.map roundRecord).length ∧
      (generate_report rs).headlineModel =
        ((rs.map roundRecord).getD j defaultRunRecord).model ∧
      (generate_report rs).headlineAccuracy =
        ((rs.map roundRecord).getD j defaultRunRecord).accuracy ∧
      (generate_report rs).headlinePrecision =
        ((rs.map roundRecord).getD j defaultRunRecord).precisionScore ∧
      (generate_report rs).headlineRecall =
        ((rs.map roundRecord).getD j defaultRunRecord).recallScore ∧
      (generate_report rs).headlineF1 =
        ((rs.map roundRecord).getD j defaultRunRecord).f1 ∧
      ∀ r ∈ rs.map roundRecord,
        r.accuracy ≤ ((rs.map roundRecord).getD j defaultRunRecord).accuracy) ∧
    (∃ rs2 : List RunRecord,
      (generate_report rs2).narrativeBestModel ≠
        (generate_report rs2).headlineModel) := by
  have hne : rs.map roundRecord ≠ [] := by
    intro hc
    exact h (List.map_eq_nil_iff.mp hc)
  refine ⟨⟨idxmaxBy (fun r => r.f1) (rs.map roundRecord),
      idxmaxBy_lt _ _ hne, rfl, fun r hr => idxmaxBy_le _ _ r hr⟩,
    ⟨idxmaxBy (fun r => r.accuracy) (rs.map roundRecord),
      idxmaxBy_lt _ _ hne, rfl, rfl, rfl, rfl, rfl,
      fun r hr => idxmaxBy_le _ _ r hr⟩,
    ⟨[c8RecA, c8RecB], ?_⟩⟩
  have hA : roundRecord c8RecA = c8RecA := by
    simp [roundRecord, c8RecA, round4_zero, round4_one]
  have hB : roundRecord c8RecB = c8RecB := by
    simp [roundRecord, c8RecB, round4_zero, round4_one]
  have hnarr : (generate_report [c8RecA, c8RecB]).narrativeBestModel = "B" := by
    show (([c8RecA, c8RecB].map roundRecord).getD
        (idxmaxBy (fun r => r.f1) ([c8RecA, c8RecB].map roundRecord))
        defaultRunRecord).model = "B"
    rw [List.map_cons, List.map_cons, List.map_nil, hA, hB]
    norm_num [idxmaxBy, List.getD, c8RecA, c8RecB]
  have hhead : (generate_report [c8RecA, c8RecB]).headlineModel = "A" := by
    show (([c8RecA, c8RecB].map roundRecord).getD
        (idxmaxBy (fun r => r.accuracy) ([c8RecA, c8RecB].map roundRecord))
        defaultRunRecord).model = "A"
    rw [List.map_cons, List.map_cons, List.map_nil, hA, hB]
    norm_num [idxmaxBy, List.getD, c8RecA, c8RecB]
  rw [hnarr, hhead]
  simp

theorem c8_two_best_selections_witness :
    (∃ i, i < ([c8RecA].map roundRecord).length ∧
      (generate_report [c8RecA]).narrativeBestModel =
        (([c8RecA].map roundRecord).getD i defaultRunRecord).model ∧
      ∀ r ∈ [c8RecA].map roundRecord,
        r.f1 ≤ (([c8RecA].map roundRecord).getD i defaultRunRecord).f1) ∧
    (∃ j, j < ([c8RecA].map roundRecord).length ∧
      (generate_report [c8RecA]).headlineModel =
        (([c8RecA].map roundRecord).getD j defaultRunRecord).model ∧
      (generate_report [c8RecA]).headlineAccuracy =
        (([c8RecA].map roundRecord).getD j defaultRunRecord).accuracy ∧
      (generate_report [c8RecA]).headlinePrecision =
        (([c8RecA].map roundRecord).getD j defaultRunRecord).precisionScore ∧
      (generate_report [c8RecA]).headlineRecall =
        (([c8RecA].map roundRecord).getD j defaultRunRecord).recallScore ∧
      (generate_report [c8RecA]).headlineF1 =
        (([c8RecA].map roundRecord).getD j defaultRunRecord).f1 ∧
      ∀ r ∈ [c8RecA].map roundRecord,
        r.accuracy ≤ (([c8RecA].map roundRecord).getD j defaultRunRecord).accuracy) ∧
    (∃ rs2 : List RunRecord,
      (generate_report rs2).narrativeBestModel ≠
        (generate_report rs2).headlineModel) :=
  c8_two_best_selections [c8RecA] (by simp)

/-! Supporting lemmas for the pipeline proofs. -/

theorem rlookup_mem {c : String} {v : Val} :
    ∀ {r : Row}, rlookup c r = some v → (c, v) ∈ r := by
  intro r
  induction r with
  | nil => intro h; cases h
  | cons p t ih =>
    intro h
    rw [rlookup] at h
    by_cases hp : p.1 = c
    · rw [if_pos hp] at h
      injection h with hv
      subst hv
      have hpe : (c, p.2) = p := by
        rw [← hp]
      exact hpe ▸ List.mem_cons_self _ _
    · rw [if_neg hp] at h
      exact List.mem_cons_of_mem _ (ih h)

theorem no_na_getCol (f : Frame) (hwf : f.WF)
    (hnona : ∀ r ∈ f.rows, ∀ p ∈ r, p.2 ≠ Val.na) {c : String}
    (hc : c ∈ f.cols) : Val.na ∉ f.getCol c := by
  intro hmem
  rcases List.mem_map.mp hmem with ⟨r, hr, hcell⟩
  have hk : c ∈ rkeys r := by rw [hwf r hr]; exact hc
  cases hl : rlookup c r with
  | none => exact (rlookup_eq_none_iff c r).mp hl hk
  | some w =>
    have hw : w = Val.na := by
      rw [cellVal, hl] at hcell
      exact hcell
    exact hnona r hr (c, w) (rlookup_mem hl) (by rw [hw])

theorem Frame.getCol_of_not_mem (f : Frame) (hwf : f.WF) {c : String}
    (hc : c ∉ f.cols) : ∀ v ∈ f.getCol c, v = Val.na := by
  intro v hv
  rcases List.mem_map.mp hv with ⟨r, hr, rfl⟩
  rw [cellVal, (rlookup_eq_none_iff c r).mpr (by rw [hwf r hr]; exact hc)]
  rfl

theorem nuniqueVal_of_all_na {vals : List Val} (h : ∀ v ∈ vals, v = Val.na) :
    nuniqueVal vals = 0 := by
  rw [nuniqueVal]
  have hf : vals.filter (fun v => !(decide (v = Val.na))) = [] := by
    rw [List.filter_eq_nil_iff]
    intro a ha
    simp [h a ha]
  rw [hf]
  rfl

theorem binColFun_zero_one {vals : List Val} (hna : Val.na ∉ vals)
    (h2 : nuniqueVal vals = 2) :
    ∀ w ∈ binColFun vals, w = Val.num 0 ∨ w = Val.num 1 := by
  have hfilter : vals.filter (fun v => !(decide (v = Val.na))) = vals := by
    apply List.filter_eq_self.mpr
    intro v hv
    simp only [Bool.not_eq_true', decide_eq_false_iff_not]
    intro hcontra
    exact hna (hcontra ▸ hv)
  rw [nuniqueVal, hfilter] at h2
  rcases List.length_eq_two.mp h2 with ⟨a, b, hab⟩
  intro w hw
  rw [binColFun] at hw
  rw [if_pos (by rw [nuniqueVal, hfilter, hab]; rfl)] at hw
  rcases List.mem_map.mp hw with ⟨v, hv, rfl⟩
  have hvu : v ∈ firstUniques vals := mem_firstUniques_of_mem hv
  rw [hab] at hvu
  simp only [List.mem_cons, List.not_mem_nil, or_false] at hvu
  have hgd0 : ([a, b] : List Val).getD 0 Val.na = a := rfl
  have hgd1 : ([a, b] : List Val).getD 1 Val.na = b := rfl
  rcases hvu with hva | hvb
  · left
    rw [binMap, hab, hgd0, if_pos hva]
  · by_cases hba : b = a
    · left
      rw [binMap, hab, hgd0, if_pos (hvb.trans hba)]
    · have hvna : ¬ v = a := fun hva => hba (by rw [← hvb, hva])
      right
      rw [binMap, hab, hgd0, hgd1, if_neg hvna, if_pos hvb]

theorem caecCalcVal_of_num (q : ℚ) : caecCalcVal (Val.num q) = Val.num 0 := by
  rw [caecCalcVal, if_neg]
  simp

theorem isNumVal_targetVal (v : Val) : isNumVal (targetVal v) = true := by
  rw [targetVal]
  by_cases h : v ∈ obesityLabels.map Val.str
  · rw [if_pos h]; rfl
  · rw [if_neg h]; rfl

theorem isNumVal_mtransVal (v : Val) : isNumVal (mtransVal v) = true := by
  rw [mtransVal]
  by_cases h : v = Val.str "Public_Transportation"
  · rw [if_pos h]; rfl
  · rw [if_neg h]; rfl

theorem isNumVal_caecCalcVal (v : Val) : isNumVal (caecCalcVal v) = true := by
  rw [caecCalcVal]
  by_cases h : v ∈ [Val.str "Frequently", Val.str "Always"]
  · rw [if_pos h]; rfl
  · rw [if_neg h]; rfl

theorem mem_cols_dropColumns_iff (f : Frame) (cs : List String) (c : String) :
    c ∈ (f.dropColumns cs).cols ↔ c ∈ f.cols ∧ c ∉ cs := by
  simp [Frame.cols_dropColumns, List.mem_filter]

theorem getCol_targetStage_ne {c : String} (h1 : c ≠ "Obesity_Binary")
    (h2 : c ≠ "NObeyesdad") (df : Frame) :
    (targetStage df).getCol c = df.getCol c := by
  rw [targetStage, Frame.getCol_dropColumns (by simp [h2]),
    Frame.getCol_applyCol_ne h1]

theorem WF_targetStage (df : Frame) (hwf : df.WF) : (targetStage df).WF :=
  Frame.WF_dropColumns _ (Frame.WF_applyCol df hwf _ _ _) _

/-! Step and fold lemmas for the generic binarization loop (lines 41-43). -/

theorem Frame.WF_binarizeStep (f : Frame) (hwf : f.WF) (c : String) :
    (binarizeStep f c).WF := by
  rw [binarizeStep]
  by_cases hcnd : nuniqueVal (f.getCol c) = 2
  · rw [if_pos hcnd]
    exact Frame.WF_applyCol f hwf _ _ _
  · rw [if_neg hcnd]
    exact hwf

theorem Frame.cols_binarizeStep (f : Frame) (hwf : f.WF) (c : String) :
    (binarizeStep f c).cols = f.cols := by
  rw [binarizeStep]
  by_cases hcnd : nuniqueVal (f.getCol c) = 2
  · rw [if_pos hcnd, Frame.cols_applyCol]
    by_cases hc : c ∈ f.cols
    · rw [if_pos hc]
    · exfalso
      rw [nuniqueVal_of_all_na (Frame.getCol_of_not_mem f hwf hc)] at hcnd
      exact absurd hcnd (by decide)
  · rw [if_neg hcnd]

theorem Frame.getCol_binarizeStep_ne {c' c : String} (h : c' ≠ c) (f : Frame) :
    (binarizeStep f c).getCol c' = f.getCol c' := by
  rw [binarizeStep]
  by_cases hcnd : nuniqueVal (f.getCol c) = 2
  · rw [if_pos hcnd, Frame.getCol_applyCol_ne h]
  · rw [if_neg hcnd]

theorem Frame.getCol_binarizeStep_self (f : Frame) (hwf : f.WF) (c : String) :
    (binarizeStep f c).getCol c = binColFun (f.getCol c) := by
  rw [binarizeStep, binColFun]
  by_cases hcnd : nuniqueVal (f.getCol c) = 2
  · rw [if_pos hcnd, if_pos hcnd, Frame.getCol_applyCol_self _ hwf]
  · rw [if_neg hcnd, if_neg hcnd]

theorem foldl_binarize_cols_WF (cs : List String) :
    ∀ (f : Frame), f.WF →
      (cs.foldl binarizeStep f).cols = f.cols ∧ (cs.foldl binarizeStep f).WF := by
  induction cs with
  | nil => intro f hwf; exact ⟨rfl, hwf⟩
  | cons c t ih =>
    intro f hwf
    rw [List.foldl_cons]
    rcases ih (binarizeStep f c) (Frame.WF_binarizeStep f hwf c) with ⟨hcols, hwf3⟩
    exact ⟨hcols.trans (Frame.cols_binarizeStep f hwf c), hwf3⟩

theorem foldl_binarize_getCol (cs : List String) :
    ∀ (f : Frame), f.WF → cs.Nodup → ∀ (c' : String),
      (cs.foldl binarizeStep f).getCol c' =
        if c' ∈ cs then binColFun (f.getCol c') else f.getCol c' := by
  induction cs with
  | nil => intro f _ _ c'; simp
  | cons c t ih =>
    intro f hwf hnd c'
    rw [List.foldl_cons,
      ih (binarizeStep f c) (Frame.WF_binarizeStep f hwf c)
        (List.nodup_cons.mp hnd).2 c']
    have hcnotin : c ∉ t := (List.nodup_cons.mp hnd).1
    by_cases hmem : c' ∈ t
    · have hne : c' ≠ c := fun he => hcnotin (he ▸ hmem)
      rw [if_pos hmem, if_pos (List.mem_cons_of_mem _ hmem),
        Frame.getCol_binarizeStep_ne hne]
    · rw [if_neg hmem]
      by_cases heq : c' = c
      · subst heq
        rw [if_pos (List.mem_cons_self _ _),
          Frame.getCol_binarizeStep_self _ hwf]
      · rw [if_neg (by simp [heq, hmem]), Frame.getCol_binarizeStep_ne heq]

/-! Step and fold lemmas for the scaling loop (lines 51-52). -/

theorem Frame.WF_scaleColumn (f : Frame) (hwf : f.WF) (c : String) (σc : ℚ) :
    (scaleColumn f c σc).WF :=
  Frame.WF_applyCol f hwf _ _ _

theorem Frame.getCol_scaleColumn_ne {c' c : String} (h : c' ≠ c) (f : Frame)
    (σc : ℚ) : (scaleColumn f c σc).getCol c' = f.getCol c' :=
  Frame.getCol_applyCol_ne h f _ _

theorem Frame.cols_scaleColumn_of_mem {c : String} (f : Frame)
    (hc : c ∈ f.cols) (σc : ℚ) : (scaleColumn f c σc).cols = f.cols := by
  rw [scaleColumn, Frame.cols_applyCol, if_pos hc]

theorem foldl_scale_getCol_not_mem (σ : String → ℚ) (cs : List String) :
    ∀ (f : Frame) (c' : String), c' ∉ cs →
      (cs.foldl (fun d c => scaleColumn d c (σ c)) f).getCol c' =
        f.getCol c' := by
  induction cs with
  | nil => intro f c' _; rfl
  | cons c t ih =>
    intro f c' hc'
    rw [List.foldl_cons,
      ih _ c' (fun h => hc' (List.mem_cons_of_mem _ h)),
      Frame.getCol_scaleColumn_ne
        (fun h => hc' (by rw [h]; exact List.mem_cons_self _ _))]

theorem foldl_scale_getCol_mem_num (σ : String → ℚ) (cs : List String) :
    ∀ (f : Frame), f.WF → cs.Nodup → ∀ c' ∈ cs,
      ∀ v ∈ (cs.foldl (fun d c => scaleColumn d c (σ c)) f).getCol c',
        isNumVal v = true := by
  induction cs with
  | nil => intro f _ _ c' hc'; simp at hc'
  | cons c t ih =>
    intro f hwf hnd c' hc'
    rw [List.foldl_cons]
    rcases List.mem_cons.mp hc' with rfl | hc'
    · have hct : c' ∉ t := (List.nodup_cons.mp hnd).1
      intro v hv
      rw [foldl_scale_getCol_not_mem σ t _ c' hct] at hv
      rw [scaleColumn, Frame.getCol_applyCol_self _ hwf] at hv
      rcases List.mem_map.mp hv with ⟨w, _, rfl⟩
      rfl
    · exact ih (scaleColumn f c (σ c)) (Frame.WF_scaleColumn f hwf c _)
        (List.nodup_cons.mp hnd).2 c' hc'

theorem foldl_scale_cols (σ : String → ℚ) (cs : List String) :
    ∀ (f : Frame), (∀ c ∈ cs, c ∈ f.cols) →
      (cs.foldl (fun d c => scaleColumn d c (σ c)) f).cols = f.cols := by
  induction cs with
  | nil => intro f _; rfl
  | cons c t ih =>
    intro f hin
    rw [List.foldl_cons]
    have hc : c ∈ f.cols := hin c (List.mem_cons_self _ _)
    have hcols : (scaleColumn f c (σ c)).cols = f.cols :=
      Frame.cols_scaleColumn_of_mem f hc _
    rw [ih _ (fun x hx => by
      rw [hcols]
      exact hin x (List.mem_cons_of_mem _ hx)), hcols]

/-! Column bookkeeping through the target stage. -/

theorem mem_cols_targetStage {c : String} (df : Frame) (hc : c ∈ df.cols)
    (hnob : c ≠ "NObeyesdad") : c ∈ (targetStage df).cols := by
  rw [targetStage]
  refine (mem_cols_dropColumns_iff _ _ _).mpr ⟨?_, by simp [hnob]⟩
  rw [Frame.cols_applyCol]
  by_cases hOB : "Obesity_Binary" ∈ df.cols
  · rw [if_pos hOB]; exact hc
  · rw [if_neg hOB]; exact List.mem_append_left _ hc

theorem nodup_cols_targetStage (df : Frame) (hnd : df.cols.Nodup) :
    (targetStage df).cols.Nodup := by
  rw [targetStage, Frame.cols_dropColumns]
  apply List.Nodup.filter
  rw [Frame.cols_applyCol]
  by_cases hOB : "Obesity_Binary" ∈ df.cols
  · rw [if_pos hOB]; exact hnd
  · rw [if_neg hOB]
    exact List.Nodup.append hnd (List.nodup_singleton _)
      (fun a ha hb => hOB ((List.mem_singleton.mp hb) ▸ ha))

theorem not_mem_cols_featuresOf_targetStage {c : String} (df : Frame)
    (hc : c ∉ df.cols) (hcob : c ≠ "Obesity_Binary") :
    c ∉ (featuresOf (targetStage df)).cols := by
  intro hmem
  rw [featuresOf] at hmem
  have h2 := (mem_cols_dropColumns_iff _ _ _).mp hmem
  rw [targetStage] at h2
  have h3 := (mem_cols_dropColumns_iff _ _ _).mp h2.1
  have h4 := h3.1
  rw [Frame.cols_applyCol] at h4
  by_cases hOB : "Obesity_Binary" ∈ df.cols
  · rw [if_pos hOB] at h4
    exact hc h4
  · rw [if_neg hOB] at h4
    rcases List.mem_append.mp h4 with h5 | h5
    · exact hc h5
    · exact hcob (List.mem_singleton.mp h5)

theorem getCol_featuresOf_ne {c : String} (h1 : c ≠ "Obesity_Binary")
    (f : Frame) : (featuresOf f).getCol c = f.getCol c := by
  rw [featuresOf, Frame.getCol_dropColumns (by simp [h1])]

theorem not_mem_cols_targetStage {c : String} (df : Frame) (hc : c ∉ df.cols)
    (hcob : c ≠ "Obesity_Binary") : c ∉ (targetStage df).cols := by
  intro hmem
  rw [targetStage] at hmem
  have h4 := ((mem_cols_dropColumns_iff _ _ _).mp hmem).1
  rw [Frame.cols_applyCol] at h4
  by_cases hOB : "Obesity_Binary" ∈ df.cols
  · rw [if_pos hOB] at h4
    exact hc h4
  · rw [if_neg hOB] at h4
    rcases List.mem_append.mp h4 with h5 | h5
    · exact hc h5
    · exact hcob (List.mem_singleton.mp h5)

theorem mem_cols_of_mem_targetStage {c : String} (df : Frame)
    (hmem : c ∈ (targetStage df).cols) (hne : c ≠ "Obesity_Binary") :
    c ∈ df.cols := by
  rw [targetStage] at hmem
  have h4 := ((mem_cols_dropColumns_iff _ _ _).mp hmem).1
  rw [Frame.cols_applyCol] at h4
  by_cases hOB : "Obesity_Binary" ∈ df.cols
  · rw [if_pos hOB] at h4
    exact h4
  · rw [if_neg hOB] at h4
    rcases List.mem_append.mp h4 with h5 | h5
    · exact h5
    · exact absurd (List.mem_singleton.mp h5) hne

theorem ne_nob_of_mem_targetStage {c : String} (df : Frame)
    (hmem : c ∈ (targetStage df).cols) : c ≠ "NObeyesdad" := by
  rw [targetStage] at hmem
  have h3 := (mem_cols_dropColumns_iff _ _ _).mp hmem
  simpa using h3.2

theorem getCol_targetStage_ob (df : Frame) (hwf : df.WF) :
    (targetStage df).getCol "Obesity_Binary" =
      (df.getCol "NObeyesdad").map targetVal := by
  rw [targetStage, Frame.getCol_dropColumns (by decide),
    Frame.getCol_applyCol_self _ hwf]

/-! Lemmas about the indicator stage (lines 45-49). -/

theorem WF_indicatorStage (f : Frame) (hwf : f.WF) : (indicatorStage f).WF :=
  Frame.WF_dropColumns _
    (Frame.WF_applyCol _
      (Frame.WF_applyCol _ (Frame.WF_applyCol _ hwf _ _ _) _ _ _) _ _ _) _

theorem getCol_indicatorStage_ne {c : String} (f : Frame)
    (h1 : c ∉ (["MTRANS", "CALC", "CAEC"] : List String))
    (h2 : c ≠ "MTRANS_Binary") (h3 : c ≠ "CAEC_binary")
    (h4 : c ≠ "CALC_binary") :
    (indicatorStage f).getCol c = f.getCol c := by
  rw [indicatorStage, Frame.getCol_dropColumns h1,
    Frame.getCol_applyCol_ne h4, Frame.getCol_applyCol_ne h3,
    Frame.getCol_applyCol_ne h2]

theorem getCol_indicatorStage_mtransB (f : Frame) (hwf : f.WF) :
    (indicatorStage f).getCol "MTRANS_Binary" =
      (f.getCol "MTRANS").map mtransVal := by
  rw [indicatorStage, Frame.getCol_dropColumns (by decide),
    Frame.getCol_applyCol_ne (by decide), Frame.getCol_applyCol_ne (by decide),
    Frame.getCol_applyCol_self _ hwf]

theorem getCol_indicatorStage_caecB (f : Frame) (hwf : f.WF) :
    (indicatorStage f).getCol "CAEC_binary" =
      (f.getCol "CAEC").map caecCalcVal := by
  rw [indicatorStage, Frame.getCol_dropColumns (by decide),
    Frame.getCol_applyCol_ne (by decide),
    Frame.getCol_applyCol_self _ (Frame.WF_applyCol f hwf _ _ _),
    Frame.getCol_applyCol_ne (by decide)]

theorem getCol_indicatorStage_calcB (f : Frame) (hwf : f.WF) :
    (indicatorStage f).getCol "CALC_binary" =
      (f.getCol "CALC").map caecCalcVal := by
  rw [indicatorStage, Frame.getCol_dropColumns (by decide),
    Frame.getCol_applyCol_self _
      (Frame.WF_applyCol _ (Frame.WF_applyCol f hwf _ _ _) _ _ _),
    Frame.getCol_applyCol_ne (by decide), Frame.getCol_applyCol_ne (by decide)]

theorem mem_cols_indicatorStage_iff (f : Frame)
    (hmb : "MTRANS_Binary" ∉ f.cols) (hcb : "CAEC_binary" ∉ f.cols)
    (hclb : "CALC_binary" ∉ f.cols) (c : String) :
    c ∈ (indicatorStage f).cols ↔
      ((c ∈ f.cols ∨ c = "MTRANS_Binary" ∨ c = "CAEC_binary" ∨
        c = "CALC_binary") ∧
       c ∉ (["MTRANS", "CALC", "CAEC"] : List String)) := by
  have hc1 : (f.applyCol "MTRANS" "MTRANS_Binary" mtransVal).cols =
      f.cols ++ ["MTRANS_Binary"] := by
    rw [Frame.cols_applyCol, if_neg hmb]
  have hcbA : "CAEC_binary" ∉ (f.applyCol "MTRANS" "MTRANS_Binary" mtransVal).cols := by
    rw [hc1]
    intro h
    rcases List.mem_append.mp h with h5 | h5
    · exact hcb h5
    · exact absurd (List.mem_singleton.mp h5) (by decide)
  have hc2 : ((f.applyCol "MTRANS" "MTRANS_Binary" mtransVal).applyCol
      "CAEC" "CAEC_binary" caecCalcVal).cols =
      (f.cols ++ ["MTRANS_Binary"]) ++ ["CAEC_binary"] := by
    rw [Frame.cols_applyCol, if_neg hcbA, hc1]
  have hclbA : "CALC_binary" ∉ ((f.applyCol "MTRANS" "MTRANS_Binary"
      mtransVal).applyCol "CAEC" "CAEC_binary" caecCalcVal).cols := by
    rw [hc2]
    intro h
    rcases List.mem_append.mp h with h5 | h5
    · rcases List.mem_append.mp h5 with h6 | h6
      · exact hclb h6
      · exact absurd (List.mem_singleton.mp h6) (by decide)
    · exact absurd (List.mem_singleton.mp h5) (by decide)
  have hc3 : (((f.applyCol "MTRANS" "MTRANS_Binary" mtransVal).applyCol
      "CAEC" "CAEC_binary" caecCalcVal).applyCol
      "CALC" "CALC_binary" caecCalcVal).cols =
      ((f.cols ++ ["MTRANS_Binary"]) ++ ["CAEC_binary"]) ++ ["CALC_binary"] := by
    rw [Frame.cols_applyCol, if_neg hclbA, hc2]
  rw [indicatorStage, mem_cols_dropColumns_iff, hc3]
  simp [List.mem_append, or_assoc]

/-- Right-hand side of `mainTransform` with the let-bindings spelled out. -/
theorem mainTransform_eq (σ : String → ℚ) (df0 : Frame) :
    mainTransform σ df0 =
      (numColumns (featuresOf (targetStage df0))).foldl
        (fun d c => scaleColumn d c (σ c))
        (indicatorStage
          ((catColumns (featuresOf (targetStage df0))).foldl binarizeStep
            (targetStage df0))) := rfl

/-- C10.  On the script's operating domain (a nonempty cleaned table with
the expected columns, object-dtype categorical sources, fresh derived names
and at least one numeric feature column, so no library call raises): if the
CAEC column has exactly two distinct values after cleaning, the generic
two-valued binarization of lines 41-43 replaces its strings by 0/1 before
line 46 tests membership in `["Frequently", "Always"]`, so `CAEC_binary` is
identically `0` whatever the original CAEC values were; and likewise for
CALC and `CALC_binary` at line 47. -/
theorem c10_caec_calc_indicator_zero (df : Frame) (σ : String → ℚ)
    (hwf : df.WF) (hnd : df.cols.Nodup)
    (hnona : ∀ r ∈ df.rows, ∀ p ∈ r, p.2 ≠ Val.na)
    (_hnob : "NObeyesdad" ∈ df.cols)
    (_hm : "MTRANS" ∈ df.cols) (hca : "CAEC" ∈ df.cols)
    (hcl : "CALC" ∈ df.cols)
    (_hobjm : isObjectCol (df.getCol "MTRANS") = true)
    (hobjca : isObjectCol (df.getCol "CAEC") = true)
    (hobjcl : isObjectCol (df.getCol "CALC") = true)
    (hcb : "CAEC_binary" ∉ df.cols) (hclb : "CALC_binary" ∉ df.cols)
    (_hrows : df.rows ≠ [])
    (_hnum : numColumns (featuresOf (targetStage df)) ≠ []) :
    (nuniqueVal (df.getCol "CAEC") = 2 →
      ∀ v ∈ (mainTransform σ df).getCol "CAEC_binary", v = Val.num 0) ∧
    (nuniqueVal (df.getCol "CALC") = 2 →
      ∀ v ∈ (mainTransform σ df).getCol "CALC_binary", v = Val.num 0) := by
  have hwf2 : (targetStage df).WF := WF_targetStage df hwf
  have hnd2 : (targetStage df).cols.Nodup := nodup_cols_targetStage df hnd
  have hndf : (featuresOf (targetStage df)).cols.Nodup := by
    rw [featuresOf, Frame.cols_dropColumns]
    exact hnd2.filter _
  have hndcat : (catColumns (featuresOf (targetStage df))).Nodup :=
    hndf.filter _
  have hwf3 :
      ((catColumns (featuresOf (targetStage df))).foldl binarizeStep
        (targetStage df)).WF :=
    (foldl_binarize_cols_WF _ _ hwf2).2
  constructor
  · intro htwo v hv
    have hget2 : (targetStage df).getCol "CAEC" = df.getCol "CAEC" :=
      getCol_targetStage_ne (by decide) (by decide) df
    have hcaecf : "CAEC" ∈ (featuresOf (targetStage df)).cols := by
      rw [featuresOf]
      exact (mem_cols_dropColumns_iff _ _ _).mpr
        ⟨mem_cols_targetStage df hca (by decide), by simp⟩
    have hcat : "CAEC" ∈ catColumns (featuresOf (targetStage df)) :=
      List.mem_filter.mpr ⟨hcaecf, by
        rw [getCol_featuresOf_ne (by decide), hget2]
        exact hobjca⟩
    have hg3 :
        ((catColumns (featuresOf (targetStage df))).foldl binarizeStep
            (targetStage df)).getCol "CAEC" =
          binColFun (df.getCol "CAEC") := by
      rw [foldl_binarize_getCol _ _ hwf2 hndcat, if_pos hcat, hget2]
    have hcbnum : "CAEC_binary" ∉ numColumns (featuresOf (targetStage df)) := by
      intro hmem
      exact not_mem_cols_featuresOf_targetStage df hcb (by decide)
        (List.mem_filter.mp hmem).1
    rw [mainTransform_eq, foldl_scale_getCol_not_mem _ _ _ _ hcbnum,
      getCol_indicatorStage_caecB _ hwf3, hg3] at hv
    rcases List.mem_map.mp hv with ⟨w, hw, rfl⟩
    rcases binColFun_zero_one (no_na_getCol df hwf hnona hca) htwo w hw with
      h0 | h1
    · rw [h0]
      exact caecCalcVal_of_num 0
    · rw [h1]
      exact caecCalcVal_of_num 1
  · intro htwo v hv
    have hget2 : (targetStage df).getCol "CALC" = df.getCol "CALC" :=
      getCol_targetStage_ne (by decide) (by decide) df
    have hcalcf : "CALC" ∈ (featuresOf (targetStage df)).cols := by
      rw [featuresOf]
      exact (mem_cols_dropColumns_iff _ _ _).mpr
        ⟨mem_cols_targetStage df hcl (by decide), by simp⟩
    have hcat : "CALC" ∈ catColumns (featuresOf (targetStage df)) :=
      List.mem_filter.mpr ⟨hcalcf, by
        rw [getCol_featuresOf_ne (by decide), hget2]
        exact hobjcl⟩
    have hg3 :
        ((catColumns (featuresOf (targetStage df))).foldl binarizeStep
            (targetStage df)).getCol "CALC" =
          binColFun (df.getCol "CALC") := by
      rw [foldl_binarize_getCol _ _ hwf2 hndcat, if_pos hcat, hget2]
    have hclbnum : "CALC_binary" ∉ numColumns (featuresOf (targetStage df)) := by
      intro hmem
      exact not_mem_cols_featuresOf_targetStage df hclb (by decide)
        (List.mem_filter.mp hmem).1
    rw [mainTransform_eq, foldl_scale_getCol_not_mem _ _ _ _ hclbnum,
      getCol_indicatorStage_calcB _ hwf3, hg3] at hv
    rcases List.mem_map.mp hv with ⟨w, hw, rfl⟩
    rcases binColFun_zero_one (no_na_getCol df hwf hnona hcl) htwo w hw with
      h0 | h1
    · rw [h0]
      exact caecCalcVal_of_num 0
    · rw [h1]
      exact caecCalcVal_of_num 1

/-- C5 counterexample.  An input containing the expected categorical column
names whose output still holds a string-valued column: the claim that every
output column is numeric fails as stated. -/
theorem c5_counterexample :
    "MTRANS" ∈ c5Frame.cols ∧ "CAEC" ∈ c5Frame.cols ∧
    "CALC" ∈ c5Frame.cols ∧ "NObeyesdad" ∈ c5Frame.cols ∧
    numColumns (featuresOf (targetStage c5Frame)) = ["Age"] ∧
    "SMOKE" ∈ (mainTransform (fun _ => 1) c5Frame).cols ∧
    Val.str "yes" ∈ (mainTransform (fun _ => 1) c5Frame).getCol "SMOKE" ∧
    ¬ (∀ c ∈ (mainTransform (fun _ => 1) c5Frame).cols,
        ∀ v ∈ (mainTransform (fun _ => 1) c5Frame).getCol c,
          isNumVal v = true) := by
  decide

/-- C5 as amended.  On the script's operating domain (a nonempty cleaned
table carrying the label column and at least one numeric feature column, so
no library call raises), if additionally every categorical feature column
other than the three dropped sources has exactly two distinct values at
transform time, then every column of the transformed table is numeric. -/
theorem c5_fully_numeric_amended (df : Frame) (σ : String → ℚ) (hwf : df.WF)
    (hnd : df.cols.Nodup)
    (hnona : ∀ r ∈ df.rows, ∀ p ∈ r, p.2 ≠ Val.na)
    (_hnob : "NObeyesdad" ∈ df.cols)
    (_hm : "MTRANS" ∈ df.cols) (_hca : "CAEC" ∈ df.cols)
    (_hcl : "CALC" ∈ df.cols)
    (hobjm : isObjectCol (df.getCol "MTRANS") = true)
    (hobjca : isObjectCol (df.getCol "CAEC") = true)
    (hobjcl : isObjectCol (df.getCol "CALC") = true)
    (hmb : "MTRANS_Binary" ∉ df.cols)
    (hcb : "CAEC_binary" ∉ df.cols) (hclb : "CALC_binary" ∉ df.cols)
    (_hrows : df.rows ≠ [])
    (_hnum : numColumns (featuresOf (targetStage df)) ≠ [])
    (htwo : ∀ c ∈ catColumns (featuresOf (targetStage df)),
      c ∉ (["MTRANS", "CALC", "CAEC"] : List String) →
      nuniqueVal (df.getCol c) = 2) :
    ∀ c ∈ (mainTransform σ df).cols,
      ∀ v ∈ (mainTransform σ df).getCol c, isNumVal v = true := by
  have hwf2 : (targetStage df).WF := WF_targetStage df hwf
  have hnd2 : (targetStage df).cols.Nodup := nodup_cols_targetStage df hnd
  have hndf : (featuresOf (targetStage df)).cols.Nodup := by
    rw [featuresOf, Frame.cols_dropColumns]
    exact hnd2.filter _
  have hndcat : (catColumns (featuresOf (targetStage df))).Nodup :=
    hndf.filter _
  have hndnum : (numColumns (featuresOf (targetStage df))).Nodup :=
    hndf.filter _
  have hwf3 : ((catColumns (featuresOf (targetStage df))).foldl binarizeStep
      (targetStage df)).WF :=
    (foldl_binarize_cols_WF _ _ hwf2).2
  have hcols3 : ((catColumns (featuresOf (targetStage df))).foldl binarizeStep
      (targetStage df)).cols = (targetStage df).cols :=
    (foldl_binarize_cols_WF _ _ hwf2).1
  have hwf7 : (indicatorStage ((catColumns (featuresOf (targetStage df))).foldl
      binarizeStep (targetStage df))).WF :=
    WF_indicatorStage _ hwf3
  have hmb3 : "MTRANS_Binary" ∉ ((catColumns (featuresOf (targetStage df))).foldl
      binarizeStep (targetStage df)).cols := by
    rw [hcols3]
    exact not_mem_cols_targetStage df hmb (by decide)
  have hcb3 : "CAEC_binary" ∉ ((catColumns (featuresOf (targetStage df))).foldl
      binarizeStep (targetStage df)).cols := by
    rw [hcols3]
    exact not_mem_cols_targetStage df hcb (by decide)
  have hclb3 : "CALC_binary" ∉ ((catColumns (featuresOf (targetStage df))).foldl
      binarizeStep (targetStage df)).cols := by
    rw [hcols3]
    exact not_mem_cols_targetStage df hclb (by decide)
  have hgm : (featuresOf (targetStage df)).getCol "MTRANS" =
      df.getCol "MTRANS" := by
    rw [getCol_featuresOf_ne (by decide),
      getCol_targetStage_ne (by decide) (by decide)]
  have hgca : (featuresOf (targetStage df)).getCol "CAEC" =
      df.getCol "CAEC" := by
    rw [getCol_featuresOf_ne (by decide),
      getCol_targetStage_ne (by decide) (by decide)]
  have hgcl : (featuresOf (targetStage df)).getCol "CALC" =
      df.getCol "CALC" := by
    rw [getCol_featuresOf_ne (by decide),
      getCol_targetStage_ne (by decide) (by decide)]
  have hmnum : "MTRANS" ∉ numColumns (featuresOf (targetStage df)) := by
    intro hmem
    have h2 := (List.mem_filter.mp hmem).2
    rw [hgm, hobjm] at h2
    exact absurd h2 (by decide)
  have hcanum : "CAEC" ∉ numColumns (featuresOf (targetStage df)) := by
    intro hmem
    have h2 := (List.mem_filter.mp hmem).2
    rw [hgca, hobjca] at h2
    exact absurd h2 (by decide)
  have hclnum : "CALC" ∉ numColumns (featuresOf (targetStage df)) := by
    intro hmem
    have h2 := (List.mem_filter.mp hmem).2
    rw [hgcl, hobjcl] at h2
    exact absurd h2 (by decide)
  have hnumsub : ∀ x ∈ numColumns (featuresOf (targetStage df)),
      x ∈ (indicatorStage ((catColumns (featuresOf (targetStage df))).foldl
        binarizeStep (targetStage df))).cols := by
    intro x hx
    have hxf : x ∈ (featuresOf (targetStage df)).cols :=
      (List.mem_filter.mp hx).1
    have hxf2 : x ∈ (targetStage df).cols := by
      rw [featuresOf] at hxf
      exact ((mem_cols_dropColumns_iff _ _ _).mp hxf).1
    have hxns : x ∉ (["MTRANS", "CALC", "CAEC"] : List String) := by
      intro hmem
      simp only [List.mem_cons, List.not_mem_nil, or_false] at hmem
      rcases hmem with rfl | rfl | rfl
      · exact hmnum hx
      · exact hclnum hx
      · exact hcanum hx
    rw [mem_cols_indicatorStage_iff _ hmb3 hcb3 hclb3]
    exact ⟨Or.inl (by rw [hcols3]; exact hxf2), hxns⟩
  have hcolsOut : (mainTransform σ df).cols =
      (indicatorStage ((catColumns (featuresOf (targetStage df))).foldl
        binarizeStep (targetStage df))).cols := by
    rw [mainTransform_eq]
    exact foldl_scale_cols _ _ _ hnumsub
  intro c hc v hv
  rw [hcolsOut, mem_cols_indicatorStage_iff _ hmb3 hcb3 hclb3] at hc
  obtain ⟨hcor, hcns⟩ := hc
  rcases hcor with hc3 | rfl | rfl | rfl
  · rw [hcols3] at hc3
    have hcnnob : c ≠ "NObeyesdad" := ne_nob_of_mem_targetStage df hc3
    have hcnmb : c ≠ "MTRANS_Binary" := fun he =>
      hmb (mem_cols_of_mem_targetStage df (he ▸ hc3) (by decide))
    have hcncb : c ≠ "CAEC_binary" := fun he =>
      hcb (mem_cols_of_mem_targetStage df (he ▸ hc3) (by decide))
    have hcnclb : c ≠ "CALC_binary" := fun he =>
      hclb (mem_cols_of_mem_targetStage df (he ▸ hc3) (by decide))
    by_cases hcob : c = "Obesity_Binary"
    · subst hcob
      have hobf : "Obesity_Binary" ∉ (featuresOf (targetStage df)).cols := by
        rw [featuresOf]
        exact Frame.not_mem_cols_dropColumns (by simp) _
      have hobnum : "Obesity_Binary" ∉
          numColumns (featuresOf (targetStage df)) :=
        fun h => hobf (List.mem_filter.mp h).1
      have hobcat : "Obesity_Binary" ∉
          catColumns (featuresOf (targetStage df)) :=
        fun h => hobf (List.mem_filter.mp h).1
      rw [mainTransform_eq, foldl_scale_getCol_not_mem _ _ _ _ hobnum,
        getCol_indicatorStage_ne _ hcns (by decide) (by decide) (by decide),
        foldl_binarize_getCol _ _ hwf2 hndcat, if_neg hobcat,
        getCol_targetStage_ob df hwf] at hv
      rcases List.mem_map.mp hv with ⟨w, _, rfl⟩
      exact isNumVal_targetVal w
    · have hcf : c ∈ (featuresOf (targetStage df)).cols := by
        rw [featuresOf]
        exact (mem_cols_dropColumns_iff _ _ _).mpr ⟨hc3, by simp [hcob]⟩
      have hcdf : c ∈ df.cols := mem_cols_of_mem_targetStage df hc3 hcob
      have hgc : (featuresOf (targetStage df)).getCol c = df.getCol c := by
        rw [getCol_featuresOf_ne hcob, getCol_targetStage_ne hcob hcnnob]
      by_cases hobj_c :
          isObjectCol ((featuresOf (targetStage df)).getCol c) = true
      · have hccat : c ∈ catColumns (featuresOf (targetStage df)) :=
          List.mem_filter.mpr ⟨hcf, hobj_c⟩
        have hcnum : c ∉ numColumns (featuresOf (targetStage df)) := by
          intro h
          have h2 := (List.mem_filter.mp h).2
          rw [hobj_c] at h2
          exact absurd h2 (by decide)
        have htwo_c := htwo c hccat hcns
        rw [mainTransform_eq, foldl_scale_getCol_not_mem _ _ _ _ hcnum,
          getCol_indicatorStage_ne _ hcns hcnmb hcncb hcnclb,
          foldl_binarize_getCol _ _ hwf2 hndcat, if_pos hccat,
          getCol_targetStage_ne hcob hcnnob] at hv
        rcases binColFun_zero_one (no_na_getCol df hwf hnona hcdf) htwo_c
            v hv with h0 | h1
        · rw [h0]; rfl
        · rw [h1]; rfl
      · have hfalse : isObjectCol ((featuresOf (targetStage df)).getCol c) =
            false := by
          cases hb : isObjectCol ((featuresOf (targetStage df)).getCol c)
          · rfl
          · exact absurd hb hobj_c
        have hcnum : c ∈ numColumns (featuresOf (targetStage df)) :=
          List.mem_filter.mpr ⟨hcf, by rw [hfalse]; rfl⟩
        rw [mainTransform_eq] at hv
        exact foldl_scale_getCol_mem_num σ _ _ hwf7 hndnum c hcnum v hv
  · have hmbnum : "MTRANS_Binary" ∉
        numColumns (featuresOf (targetStage df)) := fun h =>
      not_mem_cols_featuresOf_targetStage df hmb (by decide)
        (List.mem_filter.mp h).1
    rw [mainTransform_eq, foldl_scale_getCol_not_mem _ _ _ _ hmbnum,
      getCol_indicatorStage_mtransB _ hwf3] at hv
    rcases List.mem_map.mp hv with ⟨w, _, rfl⟩
    exact isNumVal_mtransVal w
  · have hcbnum : "CAEC_binary" ∉
        numColumns (featuresOf (targetStage df)) := fun h =>
      not_mem_cols_featuresOf_targetStage df hcb (by decide)
        (List.mem_filter.mp h).1
    rw [mainTransform_eq, foldl_scale_getCol_not_mem _ _ _ _ hcbnum,
      getCol_indicatorStage_caecB _ hwf3] at hv
    rcases List.mem_map.mp hv with ⟨w, _, rfl⟩
    exact isNumVal_caecCalcVal w
  · have hclbnum : "CALC_binary" ∉
        numColumns (featuresOf (targetStage df)) := fun h =>
      not_mem_cols_featuresOf_targetStage df hclb (by decide)
        (List.mem_filter.mp h).1
    rw [mainTransform_eq, foldl_scale_getCol_not_mem _ _ _ _ hclbnum,
      getCol_indicatorStage_calcB _ hwf3] at hv
    rcases List.mem_map.mp hv with ⟨w, _, rfl⟩
    exact isNumVal_caecCalcVal w

theorem c5_fully_numeric_amended_witness :
    ((mainTransform (fun _ => 1) c5WitFrame).cols.all (fun c =>
      ((mainTransform (fun _ => 1) c5WitFrame).getCol c).all isNumVal)) =
      true := by
  have h :=
    c5_fully_numeric_amended c5WitFrame (fun _ => 1) (by decide) (by decide)
      (by decide) (by decide) (by decide) (by decide) (by decide) (by decide)
      (by decide) (by decide) (by decide) (by decide) (by decide) (by decide)
      (by decide) (by decide)
  exact List.all_eq_true.mpr fun c hc =>
    List.all_eq_true.mpr fun v hv => h c hc v hv

theorem c10_caec_calc_indicator_zero_witness :
    (((mainTransform (fun _ => 1) c10Frame).getCol "CAEC_binary").all
      (fun v => decide (v = Val.num 0))) = true ∧
    (((mainTransform (fun _ => 1) c10Frame).getCol "CALC_binary").all
      (fun v => decide (v = Val.num 0))) = true := by
  have h := c10_caec_calc_indicator_zero c10Frame (fun _ => 1) (by decide)
    (by decide) (by decide) (by decide) (by decide) (by decide) (by decide)
    (by decide) (by decide) (by decide) (by decide) (by decide) (by decide)
    (by decide)
  exact ⟨List.all_eq_true.mpr fun v hv => decide_eq_true (h.1 (by decide) v hv),
    List.all_eq_true.mpr fun v hv => decide_eq_true (h.2 (by decide) v hv)⟩

end HW2

